import Mathlib

/-!
Bad Apple player: decoder, playback loop and window pool.

A shallow embedding of `src/bad_apple.cpp`:

* `ResourceLoader.Parse` — the binary frame-data decoder;
* `DeferredWindow` / `WindowPool` — the pool of physical windows with dirty tracking and
  one batched `DeferWindowPos` transaction per frame;
* `Application.MainLoop` — the wall-clock driven playback loop.

Conventions of the embedding.

* A buffer is a `List Byte`; a byte is a `Fin 256`.  `memcpy` into a `uint32_t` / `uint16_t`
  is the little-endian value of the bytes (the program is a Win32 program).  An exception is
  the `error` of `Except`, carrying an `Exception`.  Whether a `reserve` / `resize` gets its
  storage is an input (`Allocator`); when it does not, `std::bad_alloc` is thrown.
* `uint16_t` / `uint32_t` values are `Nat`; the reader functions only produce values in range.
* `int` values are `Int`.  The conversion `(int)vector.size()` is modelled with its 32-bit
  wrap-around (`toInt32`).  Signed overflow and out-of-range float-to-integer conversions are
  undefined behaviour in C++ and are outside the embedding.
* `float` and `double` arithmetic is IEEE 754 binary32 / binary64 with rounding to nearest,
  ties to even (`flRound`); a floating-point value is a rational, kept as a numerator over a
  power of two.  The `(int)` / `(size_t)` conversions truncate toward zero.
* Calls into the host (`BeginDeferWindowPos`, `DeferWindowPos`, `EndDeferWindowPos`) are
  recorded as a list of `HostCall`; what the host answers to `BeginDeferWindowPos` is an input.
  An index out of range of a `std::vector` is the `none` of `Option`.
* The clock is read in integer ticks, `ticksPerSecond` of them per second (`10^9` for the
  `high_resolution_clock` of the program).  Each pass of the main loop is fed one sample:
  whether the drained messages held `WM_QUIT`, and the elapsed ticks.
-/

namespace BadApple

/-! ## Data model (`RectData`, `RunData`, `FrameData`, `VideoData`) -/

/-- One byte of the resource buffer. -/
abbrev Byte := Fin 256

/-- `struct RectData { uint16_t x, y, w, h; }`. -/
structure RectData where
  x : Nat
  y : Nat
  w : Nat
  h : Nat
deriving DecidableEq, Repr

/-- `struct RunData { uint16_t y, x, len; }`. -/
structure RunData where
  y : Nat
  x : Nat
  len : Nat
deriving DecidableEq, Repr

/-- `struct FrameData { vector<RectData> big_rects; vector<RunData> runs; }`. -/
structure FrameData where
  big_rects : List RectData
  runs : List RunData
deriving DecidableEq, Repr

/-- `struct VideoData { uint32_t width, height, fps; vector<FrameData> frames; }`. -/
structure VideoData where
  width : Nat
  height : Nat
  fps : Nat
  frames : List FrameData
deriving DecidableEq, Repr

/-! ## `ResourceLoader::Parse` -/

/-- The exceptions `Parse` can leave with: the `std::runtime_error` of `read_u32` /
`read_u16` with its message, and the `std::bad_alloc` (or `std::length_error`) of a
`reserve` / `resize` that does not get its storage. -/
inductive Exception where
  | runtime_error (what : String)
  | bad_alloc
deriving DecidableEq, Repr

/-- The exception thrown by `read_u32` / `read_u16`: `std::runtime_error("Unexpected EOF")`. -/
def eofError : Exception := Exception.runtime_error "Unexpected EOF"

deriving instance DecidableEq for Except

/-- A request for storage that `Parse` makes, with its element count:
`vData.frames.reserve(frame_count)`, and in iteration `frame` of the frame loop
`frame.big_rects.resize(rect_len)` and `frame.runs.resize(run_len)`. -/
inductive AllocRequest where
  | frames (count : Nat)
  | big_rects (frame : Nat) (count : Nat)
  | runs (frame : Nat) (count : Nat)
deriving DecidableEq, Repr

/-- The element count of a request. -/
def AllocRequest.count : AllocRequest → Nat
  | AllocRequest.frames n => n
  | AllocRequest.big_rects _ n => n
  | AllocRequest.runs _ n => n

/-- The heap, as `Parse` sees it: which requests get their storage.  It is an input. -/
abbrev Allocator := AllocRequest → Bool

/-- The request gets its storage: it asks for no element (an empty vector is left as it is),
or the heap grants it. -/
def Allocator.grants (alloc : Allocator) (req : AllocRequest) : Prop :=
  req.count = 0 ∨ alloc req = true

instance (alloc : Allocator) (req : AllocRequest) : Decidable (alloc.grants req) := by
  unfold Allocator.grants
  infer_instance

/-- A `reserve` / `resize` on an empty vector: throws when the storage is not granted. -/
def allocate (alloc : Allocator) (req : AllocRequest) : Except Exception Unit :=
  if alloc.grants req then .ok () else .error Exception.bad_alloc

/-- The lambda `read_u32`: fails when fewer than four bytes remain (`ptr + 4 > end`),
otherwise copies four bytes (little-endian) and advances `ptr` by four. -/
def read_u32 : List Byte → Except Exception (Nat × List Byte)
  | b0 :: b1 :: b2 :: b3 :: rest =>
      .ok (b0.val + 256 * b1.val + 65536 * b2.val + 16777216 * b3.val, rest)
  | _ => .error eofError

/-- The lambda `read_u16`: fails when fewer than two bytes remain (`ptr + 2 > end`),
otherwise copies two bytes (little-endian) and advances `ptr` by two. -/
def read_u16 : List Byte → Except Exception (Nat × List Byte)
  | b0 :: b1 :: rest => .ok (b0.val + 256 * b1.val, rest)
  | _ => .error eofError

/-- The body of `for (auto& r : frame.big_rects)`: `read_u16` of `x`, `y`, `w`, `h`. -/
def readRect (bs : List Byte) : Except Exception (RectData × List Byte) := do
  let (x, bs) ← read_u16 bs
  let (y, bs) ← read_u16 bs
  let (w, bs) ← read_u16 bs
  let (h, bs) ← read_u16 bs
  pure ({ x := x, y := y, w := w, h := h }, bs)

/-- The body of `for (auto& r : frame.runs)`: `read_u16` of `y`, `x`, `len`. -/
def readRun (bs : List Byte) : Except Exception (RunData × List Byte) := do
  let (y, bs) ← read_u16 bs
  let (x, bs) ← read_u16 bs
  let (len, bs) ← read_u16 bs
  pure ({ y := y, x := x, len := len }, bs)

/-- The loop `for (auto& r : frame.big_rects)` over the `rect_len` resized elements. -/
def readRects : Nat → List Byte → Except Exception (List RectData × List Byte)
  | 0, bs => .ok ([], bs)
  | n + 1, bs => do
      let (r, bs) ← readRect bs
      let (rs, bs) ← readRects n bs
      pure (r :: rs, bs)

/-- The loop `for (auto& r : frame.runs)` over the `run_len` resized elements. -/
def readRuns : Nat → List Byte → Except Exception (List RunData × List Byte)
  | 0, bs => .ok ([], bs)
  | n + 1, bs => do
      let (r, bs) ← readRun bs
      let (rs, bs) ← readRuns n bs
      pure (r :: rs, bs)

/-- The body of the frame loop in iteration `i`: `read_u32(rect_len)`,
`big_rects.resize(rect_len)`, the rectangles, `read_u32(run_len)`, `runs.resize(run_len)`,
the runs. -/
def readFrame (alloc : Allocator) (i : Nat) (bs : List Byte) :
    Except Exception (FrameData × List Byte) := do
  let (rect_len, bs) ← read_u32 bs
  allocate alloc (AllocRequest.big_rects i rect_len)
  let (big_rects, bs) ← readRects rect_len bs
  let (run_len, bs) ← read_u32 bs
  allocate alloc (AllocRequest.runs i run_len)
  let (runs, bs) ← readRuns run_len bs
  pure ({ big_rects := big_rects, runs := runs }, bs)

/-- The loop `for (uint32_t i = 0; i < frame_count; ++i)` with its `push_back` (into the
reserved storage), `n` iterations from iteration `i` on. -/
def readFrames (alloc : Allocator) : Nat → Nat → List Byte →
    Except Exception (List FrameData × List Byte)
  | 0, _, bs => .ok ([], bs)
  | n + 1, i, bs => do
      let (f, bs) ← readFrame alloc i bs
      let (fs, bs) ← readFrames alloc n (i + 1) bs
      pure (f :: fs, bs)

/-- `ResourceLoader::Parse(data, size)`: the header, `frames.reserve(frame_count)`, then
`frame_count` frames.  Bytes after the last frame are not looked at. -/
def ResourceLoader.Parse (alloc : Allocator) (data : List Byte) : Except Exception VideoData := do
  let (width, bs) ← read_u32 data
  let (height, bs) ← read_u32 bs
  let (fps, bs) ← read_u32 bs
  let (frame_count, bs) ← read_u32 bs
  allocate alloc (AllocRequest.frames frame_count)
  let (frames, _) ← readFrames alloc frame_count 0 bs
  pure { width := width, height := height, fps := fps, frames := frames }

/-! ### The layout of section 4.1, written as an encoder

These definitions follow the words of the specification (header, per-frame counts and records,
all little-endian); they are what `Parse` is compared with. -/

/-- Little-endian 16-bit layout of a value. -/
def encodeU16 (v : Nat) : List Byte :=
  [Fin.ofNat v, Fin.ofNat (v / 256)]

/-- Little-endian 32-bit layout of a value. -/
def encodeU32 (v : Nat) : List Byte :=
  [Fin.ofNat v, Fin.ofNat (v / 256), Fin.ofNat (v / 65536), Fin.ofNat (v / 16777216)]

/-- A rectangle record: `(x, y, w, h)`. -/
def encodeRect (r : RectData) : List Byte :=
  encodeU16 r.x ++ encodeU16 r.y ++ encodeU16 r.w ++ encodeU16 r.h

/-- A run record: `(y, x, len)`. -/
def encodeRun (r : RunData) : List Byte :=
  encodeU16 r.y ++ encodeU16 r.x ++ encodeU16 r.len

/-- The records of a rectangle list, in order. -/
def encodeRects : List RectData → List Byte
  | [] => []
  | r :: rs => encodeRect r ++ encodeRects rs

/-- The records of a run list, in order. -/
def encodeRuns : List RunData → List Byte
  | [] => []
  | r :: rs => encodeRun r ++ encodeRuns rs

/-- A frame: `rectCount`, the rectangle records, `runCount`, the run records. -/
def encodeFrame (f : FrameData) : List Byte :=
  encodeU32 f.big_rects.length ++ encodeRects f.big_rects ++
    (encodeU32 f.runs.length ++ encodeRuns f.runs)

/-- The frames, in presentation order. -/
def encodeFrames : List FrameData → List Byte
  | [] => []
  | f :: fs => encodeFrame f ++ encodeFrames fs

/-- The whole resource: `width`, `height`, `fps`, `frameCount`, then the frames. -/
def encodeVideo (v : VideoData) : List Byte :=
  encodeU32 v.width ++ encodeU32 v.height ++ encodeU32 v.fps ++ encodeU32 v.frames.length ++
    encodeFrames v.frames

/-- Every field of the rectangle is a 16-bit unsigned value. -/
def RectData.InRange (r : RectData) : Prop :=
  r.x < 2 ^ 16 ∧ r.y < 2 ^ 16 ∧ r.w < 2 ^ 16 ∧ r.h < 2 ^ 16

/-- Every field of the run is a 16-bit unsigned value. -/
def RunData.InRange (r : RunData) : Prop :=
  r.y < 2 ^ 16 ∧ r.x < 2 ^ 16 ∧ r.len < 2 ^ 16

/-- Both counts fit 32 bits and every record is in range. -/
def FrameData.InRange (f : FrameData) : Prop :=
  f.big_rects.length < 2 ^ 32 ∧ f.runs.length < 2 ^ 32 ∧
    (∀ r ∈ f.big_rects, r.InRange) ∧ (∀ r ∈ f.runs, r.InRange)

/-- The video models of the format: 32-bit header fields and frame count, frames in range. -/
def VideoData.InRange (v : VideoData) : Prop :=
  v.width < 2 ^ 32 ∧ v.height < 2 ^ 32 ∧ v.fps < 2 ^ 32 ∧ v.frames.length < 2 ^ 32 ∧
    ∀ f ∈ v.frames, f.InRange

instance (r : RectData) : Decidable r.InRange := by
  unfold RectData.InRange
  infer_instance

instance (r : RunData) : Decidable r.InRange := by
  unfold RunData.InRange
  infer_instance

instance (f : FrameData) : Decidable f.InRange := by
  unfold FrameData.InRange
  infer_instance

instance (v : VideoData) : Decidable v.InRange := by
  unfold VideoData.InRange
  infer_instance

/-- The heap grants every request that `Parse` makes on the encoding of `v`: the frame
vector, and the rectangle and run vectors of every frame. -/
def Allocator.Grants (alloc : Allocator) (v : VideoData) : Prop :=
  alloc.grants (AllocRequest.frames v.frames.length) ∧
    ∀ (i : Nat) (h : i < v.frames.length),
      alloc.grants (AllocRequest.big_rects i (v.frames.get ⟨i, h⟩).big_rects.length) ∧
        alloc.grants (AllocRequest.runs i (v.frames.get ⟨i, h⟩).runs.length)

instance (alloc : Allocator) (v : VideoData) : Decidable (alloc.Grants v) := by
  unfold Allocator.Grants
  infer_instance

/-- A heap that grants every request. -/
def plentifulHeap : Allocator := fun _ => true

/-- A heap that grants the requests of fewer than `2^30` elements only. -/
def limitedHeap : Allocator := fun req => decide (req.count < 2 ^ 30)

/-- A video of `2^32 - 1` empty frames. -/
def longVideo : VideoData :=
  { width := 2, height := 1, fps := 30,
    frames := List.replicate (2 ^ 32 - 1) { big_rects := [], runs := [] } }

/-- A sample video: 2×1 pixels, 1 fps, frame 0 = `[{0,0,1,1}]`, frame 1 = `[{1,0,1,1}]`. -/
def exampleVideo : VideoData :=
  { width := 2, height := 1, fps := 1,
    frames := [ { big_rects := [⟨0, 0, 1, 1⟩], runs := [] },
                { big_rects := [⟨1, 0, 1, 1⟩], runs := [⟨0, 1, 1⟩] } ] }

/-! ## Floating-point arithmetic

The products `seconds * fps` (binary64) and `r.x * scale` (binary32) are computed by the
machine with IEEE 754 rounding to nearest, ties to even.  `flRound p a b` is that rounding of
the rational `a / b` to `p` significant bits.  The exponent range is not bounded: the tick
counts, clock periods, frame rates and coordinates of the program are far from overflow and
underflow. -/

/-- `floorLog2Aux fuel n` is `floor(log2 n)` as long as `n ≤ fuel`. -/
def floorLog2Aux : Nat → Nat → Nat
  | 0, _ => 0
  | fuel + 1, n => if n < 2 then 0 else floorLog2Aux fuel (n / 2) + 1

/-- The position of the leading bit: `floor(log2 n)` for `n ≥ 1`, and 0 for `n = 0`. -/
def floorLog2 (n : Nat) : Nat := floorLog2Aux n n

/-- The rational `n / d` rounded to the nearest natural number, ties to even. -/
def roundHalfEven (n d : Nat) : Nat :=
  if 2 * (n % d) < d then n / d
  else if d < 2 * (n % d) then n / d + 1
  else if (n / d) % 2 = 0 then n / d else n / d + 1

/-- The number of fraction bits in which `flRound p · b` gives its result. -/
def flShift (p b : Nat) : Nat := p + floorLog2 b + 1

/-- The rational `a / b` rounded to `p` significant bits, to nearest, ties to even (the IEEE 754
default rounding, exponent range unbounded): the numerator of the result over the denominator
`2 ^ flShift p b`. -/
def flRound (p a b : Nat) : Nat :=
  if b = 0 then 0
  else
    let X := a * 2 ^ flShift p b
    let e := floorLog2 (X / b) - (p - 1)
    roundHalfEven X (b * 2 ^ e) * 2 ^ e

/-! ## Physical window management (`DeferredWindow`, `WindowPool`) -/

namespace Constants

/-- `constexpr int MAX_PHYSICAL_WINDOWS = 150`. -/
def MAX_PHYSICAL_WINDOWS : Nat := 150

end Constants

/-! The `SetWindowPos` flag values are those of the Windows SDK header `winuser.h`. -/

/-- `#define SWP_NOSIZE 0x0001`: retain the current size. -/
def SWP_NOSIZE : Nat := 0x0001

/-- `#define SWP_NOMOVE 0x0002`: retain the current position. -/
def SWP_NOMOVE : Nat := 0x0002

/-- `#define SWP_NOZORDER 0x0004`. -/
def SWP_NOZORDER : Nat := 0x0004

/-- `#define SWP_NOREDRAW 0x0008`. -/
def SWP_NOREDRAW : Nat := 0x0008

/-- `#define SWP_NOACTIVATE 0x0010`. -/
def SWP_NOACTIVATE : Nat := 0x0010

/-- `#define SWP_SHOWWINDOW 0x0040`. -/
def SWP_SHOWWINDOW : Nat := 0x0040

/-- `#define SWP_HIDEWINDOW 0x0080`. -/
def SWP_HIDEWINDOW : Nat := 0x0080

/-- `#define SWP_NOCOPYBITS 0x0100`. -/
def SWP_NOCOPYBITS : Nat := 0x0100

/-- The operator `~` on a 32-bit `UINT`. -/
def uintNot (v : Nat) : Nat := 0xFFFFFFFF ^^^ v

/-- A flag bit is set in a flag word. -/
def hasFlag (flags flag : Nat) : Bool := flags &&& flag != 0

/-- The conversion of a `size_t` to `int`: the low 32 bits, read as a signed value. -/
def toInt32 (n : Nat) : Int :=
  if n % 2 ^ 32 < 2 ^ 31 then ((n % 2 ^ 32 : Nat) : Int)
  else ((n % 2 ^ 32 : Nat) : Int) - 2 ^ 32

/-- The value of the `float` scale factor, the rational `num / den`. -/
structure Scale where
  num : Int
  den : Nat
  den_pos : 0 < den
deriving DecidableEq

/-- The expression `(int)(v * scale)` for a `uint16_t` value `v`, as the machine computes it:
`v` is converted to `float` (`value / 2^flShift 24 1`), the product with `scale` is rounded to
binary32 (`product / 2^flShift 24 …`), and the conversion to `int` truncates toward zero. -/
def scaleTrunc (v : Nat) (s : Scale) : Int :=
  let value := flRound 24 v 1
  let product := flRound 24 (value * s.num.natAbs) (2 ^ flShift 24 1 * s.den)
  let magnitude := product / 2 ^ flShift 24 (2 ^ flShift 24 1 * s.den)
  if s.num < 0 then -(magnitude : Int) else (magnitude : Int)

/-- The scaled coordinate in exact arithmetic, truncated toward zero: `trunc(v * s)` as the
claims word it. -/
def exactScaleTrunc (v : Nat) (s : Scale) : Int :=
  Int.tdiv ((v : Int) * s.num) (s.den : Int)

/-- One call into the host windowing system, with its arguments (the `HDWP` handle and the
null `hWndInsertAfter` left out). -/
inductive HostCall where
  | BeginDeferWindowPos (nNumWindows : Int)
  | DeferWindowPos (hwnd : Nat) (x y cx cy : Int) (uFlags : Nat)
  | EndDeferWindowPos
deriving DecidableEq, Repr

/-- `class DeferredWindow`: the window handle, the stored geometry and visibility, and the
three dirty flags. -/
structure DeferredWindow where
  hwnd : Nat
  x : Int
  y : Int
  w : Int
  h : Int
  visible : Bool
  pos_stale : Bool
  sz_stale : Bool
  visible_stale : Bool
deriving DecidableEq, Repr

/-- The constructor `DeferredWindow(hInstance)`; `hwnd` is the handle `CreateWindowExW`
returned.  The member initialisers: zero geometry, hidden, all three flags set. -/
def DeferredWindow.create (hwnd : Nat) : DeferredWindow :=
  { hwnd := hwnd, x := 0, y := 0, w := 0, h := 0, visible := false,
    pos_stale := true, sz_stale := true, visible_stale := true }

/-- `DeferredWindow::Update(_x, _y, _w, _h, _visible)`. -/
def DeferredWindow.Update (d : DeferredWindow) (x_ y_ w_ h_ : Int) (visible_ : Bool) :
    DeferredWindow :=
  let d := if d.visible ≠ visible_ then { d with visible := visible_, visible_stale := true }
    else d
  if !visible_ then d
  else
    let w_ := max 1 w_
    let h_ := max 1 h_
    let d := if d.w ≠ w_ ∨ d.h ≠ h_ then { d with w := w_, h := h_, sz_stale := true } else d
    let d := if d.x ≠ x_ ∨ d.y ≠ y_ then { d with x := x_, y := y_, pos_stale := true } else d
    d

/-- `DeferredWindow::IsStale()`. -/
def DeferredWindow.IsStale (d : DeferredWindow) : Bool :=
  d.pos_stale || d.sz_stale || d.visible_stale

/-- The `flags` word that `DeferredWindow::Apply` computes. -/
def DeferredWindow.applyFlags (d : DeferredWindow) : Nat :=
  let flags := SWP_NOACTIVATE ||| SWP_NOCOPYBITS ||| SWP_NOZORDER
  let flags := if !d.sz_stale then flags ||| SWP_NOSIZE else flags
  let flags := if !d.pos_stale then flags ||| SWP_NOMOVE else flags
  if d.visible_stale then
    let flags := flags ||| (if d.visible then SWP_SHOWWINDOW else SWP_HIDEWINDOW)
    if d.visible then flags &&& uintNot SWP_NOREDRAW else flags
  else
    if d.sz_stale then flags &&& uintNot SWP_NOREDRAW else flags ||| SWP_NOREDRAW

/-- `DeferredWindow::Apply(hdwp)`: computes the flags, clears the three dirty flags and calls
`DeferWindowPos` with the stored geometry.  Returns the window and the call made. -/
def DeferredWindow.Apply (d : DeferredWindow) : DeferredWindow × HostCall :=
  let flags := d.applyFlags
  ({ d with pos_stale := false, sz_stale := false, visible_stale := false },
    HostCall.DeferWindowPos d.hwnd d.x d.y d.w d.h flags)

/-- `class WindowPool`: the windows, the screen origin of the playback surface, the scale. -/
structure WindowPool where
  windows : List DeferredWindow
  originX : Int
  originY : Int
  scale : Scale
deriving DecidableEq

/-- A default-constructed `WindowPool`: no windows, origin `(0, 0)`, scale `1.0f`. -/
def WindowPool.default : WindowPool :=
  { windows := [], originX := 0, originY := 0, scale := ⟨1, 1, Nat.one_pos⟩ }

/-- `WindowPool::Initialize(hInstance, hParent, drawScale)`.  `createWindow i` is the handle
the host returns for the `i`-th window created, `pt` the point `ClientToScreen` returns. -/
def WindowPool.Initialize (p : WindowPool) (createWindow : Nat → Nat) (pt : Int × Int)
    (drawScale : Scale) : WindowPool :=
  { windows := p.windows ++
      (List.range Constants.MAX_PHYSICAL_WINDOWS).map
        (fun i => DeferredWindow.create (createWindow i)),
    originX := pt.1, originY := pt.2, scale := drawScale }

/-- The call `windows[i].Update(originX + (int)(r.x * scale), originY + (int)(r.y * scale),
(int)(r.w * scale), (int)(r.h * scale), true)` of an active slot. -/
def updateActive (originX originY : Int) (scale : Scale) (win : DeferredWindow) (r : RectData) :
    DeferredWindow :=
  win.Update (originX + scaleTrunc r.x scale) (originY + scaleTrunc r.y scale)
    (scaleTrunc r.w scale) (scaleTrunc r.h scale) true

/-- The first loop of `WindowPool::Update`, `k` iterations from index `i` on: each iteration
updates `windows[i]` (from `frame.big_rects[i]` when `i < activeCount`, else to hidden) and
counts it when stale.  `none` is an index out of range. -/
def updateSlots (originX originY : Int) (scale : Scale) (frame : FrameData) (activeCount : Int) :
    Nat → Nat → List DeferredWindow → Int → Option (List DeferredWindow × Int)
  | 0, _, ws, staleCount => some (ws, staleCount)
  | k + 1, i, ws, staleCount =>
    match ws[i]? with
    | none => none
    | some win =>
      let updated : Option DeferredWindow :=
        if (i : Int) < activeCount then
          match frame.big_rects[i]? with
          | none => none
          | some r => some (updateActive originX originY scale win r)
        else some (win.Update 0 0 0 0 false)
      match updated with
      | none => none
      | some win' =>
        updateSlots originX originY scale frame activeCount k (i + 1) (ws.set i win')
          (if win'.IsStale then staleCount + 1 else staleCount)

/-- The loop `for (auto& win : windows) if (win.IsStale()) hdwp = win.Apply(hdwp)`: the
windows afterwards and the `DeferWindowPos` calls made, in order. -/
def applyStale : List DeferredWindow → List DeferredWindow × List HostCall
  | [] => ([], [])
  | win :: rest =>
    let r := applyStale rest
    if win.IsStale then ((win.Apply).1 :: r.1, (win.Apply).2 :: r.2) else (win :: r.1, r.2)

/-- What one `WindowPool::Update` did: the pool afterwards, the final `staleCount`, and the
host calls made, in order. -/
structure UpdateResult where
  pool : WindowPool
  staleCount : Int
  calls : List HostCall
deriving DecidableEq

/-- `WindowPool::Update(frame)`.  `beginOk` tells whether `BeginDeferWindowPos` returns a
handle (`true`) or null (`false`).  `none` is an index out of range. -/
def WindowPool.Update (p : WindowPool) (frame : FrameData) (beginOk : Bool) :
    Option UpdateResult :=
  let rectsTotal : Int := toInt32 frame.big_rects.length
  let activeCount : Int := min rectsTotal (Constants.MAX_PHYSICAL_WINDOWS : Int)
  match updateSlots p.originX p.originY p.scale frame activeCount
      Constants.MAX_PHYSICAL_WINDOWS 0 p.windows 0 with
  | none => none
  | some (ws, staleCount) =>
    if staleCount > 0 then
      if beginOk then
        some { pool := { p with windows := (applyStale ws).1 }, staleCount := staleCount,
               calls := HostCall.BeginDeferWindowPos staleCount :: (applyStale ws).2 ++
                 [HostCall.EndDeferWindowPos] }
      else
        some { pool := { p with windows := ws }, staleCount := staleCount,
               calls := [HostCall.BeginDeferWindowPos staleCount] }
    else
      some { pool := { p with windows := ws }, staleCount := staleCount, calls := [] }

/-! ## `Application::MainLoop` -/

/-- What one pass of the loop body did: `Finished` is the `break`, `Advance n` is
`DrawFrame(frames[n]); DwmFlush(); windowPool.Update(frames[n])`, `Idle` is the 1 ms sleep. -/
inductive Signal where
  | Finished
  | Advance (n : Nat)
  | Idle
deriving DecidableEq, Repr

/-- The locals of `MainLoop` that live across iterations. -/
structure LoopState where
  current_frame : Nat
  running : Bool
deriving DecidableEq, Repr

/-- The locals before the first iteration: `current_frame = 0`, `running = true`. -/
def LoopState.initial : LoopState := { current_frame := 0, running := true }

/-- The expression `(size_t)(duration<double>(elapsed).count() * videoData.fps)` as the
machine computes it, for an elapsed time of `elapsed` ticks of a clock of period
`1 / ticksPerSecond` seconds: the tick count and the period denominator are converted to
`double` (`count / 2^flShift 53 1`, `den / 2^flShift 53 1`) and divided (`seconds /
2^flShift 53 den`), the quotient is multiplied by `(double)fps`, each result rounded to
binary64, and the conversion to `size_t` truncates. -/
def target_frame (ticksPerSecond : Nat) (v : VideoData) (elapsed : Nat) : Nat :=
  let count := flRound 53 elapsed 1
  let den := flRound 53 ticksPerSecond 1
  let seconds := flRound 53 count den
  let fps := flRound 53 v.fps 1
  let product := flRound 53 (seconds * fps) (2 ^ (flShift 53 den + flShift 53 1))
  product / 2 ^ flShift 53 (2 ^ (flShift 53 den + flShift 53 1))

/-- The target index in exact arithmetic, `floor(elapsed * fps)` for an elapsed time of
`elapsed / ticksPerSecond` seconds, as the claims word it. -/
def exactTarget (ticksPerSecond : Nat) (v : VideoData) (elapsed : Nat) : Nat :=
  elapsed * v.fps / ticksPerSecond

/-- One pass of the body of `while (running)`.  `quit` tells whether the drained messages
held a `WM_QUIT`, `elapsed` is the clock reading minus `start_time`. -/
def tick (ticksPerSecond : Nat) (v : VideoData) (s : LoopState) (quit : Bool) (elapsed : Nat) :
    Signal × LoopState :=
  let running := if quit then false else s.running
  let target := target_frame ticksPerSecond v elapsed
  if target ≥ v.frames.length then (Signal.Finished, { s with running := running })
  else if target ≠ s.current_frame then
    (Signal.Advance target, { current_frame := target, running := running })
  else (Signal.Idle, { s with running := running })

/-- The loop `while (running) { ... }` from state `s`, fed one `(quit, elapsed)` sample per
iteration: the signals of the iterations executed, in order.  The loop is left on `break`
and when `running` is false at the loop test; the trace also ends when the samples do. -/
def runLoop (ticksPerSecond : Nat) (v : VideoData) : LoopState → List (Bool × Nat) → List Signal
  | _, [] => []
  | s, (quit, elapsed) :: rest =>
    if s.running then
      match tick ticksPerSecond v s quit elapsed with
      | (Signal.Finished, _) => [Signal.Finished]
      | (sig, s') => sig :: runLoop ticksPerSecond v s' rest
    else []

/-- `Application::MainLoop()` on the given samples. -/
def Application.MainLoop (ticksPerSecond : Nat) (v : VideoData) (samples : List (Bool × Nat)) :
    List Signal :=
  runLoop ticksPerSecond v LoopState.initial samples

/-- The frame indices rendered: the `n` of every `Advance n` of a trace, in order. -/
def advanced : List Signal → List Nat
  | [] => []
  | Signal.Advance n :: rest => n :: advanced rest
  | _ :: rest => advanced rest

/-! ## Definitions used to state and prove the window-pool theorems -/

/-- The window with its three dirty flags cleared, as `Apply` leaves it. -/
def DeferredWindow.clean (d : DeferredWindow) : DeferredWindow :=
  { d with pos_stale := false, sz_stale := false, visible_stale := false }

/-- What one iteration of the first loop of `WindowPool::Update` does to the window of slot
`i` (the rectangle looked up is in range whenever `i < activeCount`). -/
def slotUpdate (originX originY : Int) (scale : Scale) (frame : FrameData) (activeCount : Int)
    (i : Nat) (win : DeferredWindow) : DeferredWindow :=
  if (i : Int) < activeCount then
    match frame.big_rects[i]? with
    | some r => updateActive originX originY scale win r
    | none => win
  else win.Update 0 0 0 0 false

/-- The first loop of `WindowPool::Update` as a map over the windows from slot `i` on. -/
def updateAll (originX originY : Int) (scale : Scale) (frame : FrameData) (activeCount : Int) :
    Nat → List DeferredWindow → List DeferredWindow
  | _, [] => []
  | i, win :: rest =>
    slotUpdate originX originY scale frame activeCount i win ::
      updateAll originX originY scale frame activeCount (i + 1) rest

/-- The `activeCount` of `WindowPool::Update`: `min((int)frame.big_rects.size(), 150)`. -/
def activeCount (frame : FrameData) : Int :=
  min (toInt32 frame.big_rects.length) (Constants.MAX_PHYSICAL_WINDOWS : Int)

/-- The windows of the pool after the first loop of `WindowPool::Update(frame)`. -/
def slotsAfter (p : WindowPool) (frame : FrameData) : List DeferredWindow :=
  updateAll p.originX p.originY p.scale frame (activeCount frame) 0 p.windows

/-- The call is a `DeferWindowPos` (an entry of the transaction). -/
def HostCall.isDefer : HostCall → Bool
  | HostCall.DeferWindowPos _ _ _ _ _ _ => true
  | _ => false

/-- A freshly initialised pool: handles `0 … 149`, origin `(100, 50)`, scale `3/2`. -/
def freshPool : WindowPool :=
  WindowPool.default.Initialize (fun i => i) (100, 50) ⟨3, 2, by decide⟩

/-- Frame 0 of the sample video. -/
def frame0 : FrameData := { big_rects := [⟨0, 0, 1, 1⟩], runs := [] }

/-- Frame 1 of the sample video (its rectangle list). -/
def frame1 : FrameData := { big_rects := [⟨1, 0, 1, 1⟩], runs := [] }

/-- The pool that `Update(frame0)` leaves when applied to `freshPool` (see
`freshPool_update_frame0`): slot 0 shows the rectangle at `(100, 50)` with size `1 × 1`, the
other slots are hidden, and no dirty flag is set. -/
def poolAfterFrame0 : WindowPool :=
  { windows :=
      { hwnd := 0, x := 100, y := 50, w := 1, h := 1, visible := true,
        pos_stale := false, sz_stale := false, visible_stale := false } ::
      (List.range 149).map (fun i =>
        { hwnd := i + 1, x := 0, y := 0, w := 0, h := 0, visible := false,
          pos_stale := false, sz_stale := false, visible_stale := false }),
    originX := 100, originY := 50, scale := ⟨3, 2, by decide⟩ }

/-- The `float` nearest to 0.7: `0.7f = 11744051 / 2^24`. -/
def scale07 : Scale := ⟨11744051, 2 ^ 24, by decide⟩

/-- A freshly initialised pool with the scale `0.7f` and the origin `(100, 50)`. -/
def pool07 : WindowPool :=
  WindowPool.default.Initialize (fun i => i) (100, 50) scale07

/-- A frame with the single rectangle `{10, 20, 30, 40}`. -/
def frameA : FrameData := { big_rects := [⟨10, 20, 30, 40⟩], runs := [] }

/-- A frame with 151 rectangles, `{i, 2i, 3, 4}` at list position `i`. -/
def wideFrame : FrameData :=
  { big_rects := (List.range 151).map (fun i => ⟨i, 2 * i, 3, 4⟩), runs := [] }

/-- A video at 100 frames per second with 29 (empty) frames. -/
def video100 : VideoData :=
  { width := 2, height := 1, fps := 100,
    frames := List.replicate 29 { big_rects := [], runs := [] } }

/-- A freshly initialised pool with the scale `1/2` and the origin `(0, 0)`. -/
def halfScalePool : WindowPool :=
  WindowPool.default.Initialize (fun i => i) (0, 0) ⟨1, 2, by decide⟩

/-! ## Definitions used to state the decoder theorems -/

/-- The reader `R` takes the value `v` off the front of any buffer that starts with `e`,
leaving what follows `e`, and fails with the EOF error on every strictly shorter initial
segment of `e`. -/
def Decodes {α : Type} (R : List Byte → Except Exception (α × List Byte)) (e : List Byte)
    (v : α) : Prop :=
  (∀ rest, R (e ++ rest) = .ok (v, rest)) ∧
    ∀ k, k < e.length → R (e.take k) = .error eofError

/-- `Parse` with the rest of the buffer kept: the reader whose value `Parse` returns. -/
def parseReader (alloc : Allocator) (data : List Byte) :
    Except Exception (VideoData × List Byte) := do
  let (width, bs) ← read_u32 data
  let (height, bs) ← read_u32 bs
  let (fps, bs) ← read_u32 bs
  let (frame_count, bs) ← read_u32 bs
  allocate alloc (AllocRequest.frames frame_count)
  let (frames, bs) ← readFrames alloc frame_count 0 bs
  pure ({ width := width, height := height, fps := fps, frames := frames }, bs)

/-- The run `x` under some heap against the run `y` under the heap that grants everything:
the same result, or `std::bad_alloc`. -/
def SameOrBadAlloc {α : Type} (x y : Except Exception α) : Prop :=
  x = y ∨ x = .error Exception.bad_alloc

/-! ## Decoder: reading an encoding back, and failing on every truncation of it -/

theorem Decodes.bind {α β : Type} {R1 : List Byte → Except Exception (α × List Byte)}
    {K : α × List Byte → Except Exception (β × List Byte)} {e1 e2 : List Byte} {v1 : α} {v2 : β}
    (h1 : Decodes R1 e1 v1) (h2 : Decodes (fun bs => K (v1, bs)) e2 v2) :
    Decodes (fun bs => R1 bs >>= K) (e1 ++ e2) v2 := by
  refine ⟨fun rest => ?_, fun k hk => ?_⟩
  · show R1 (e1 ++ e2 ++ rest) >>= K = _
    rw [List.append_assoc, h1.1]
    exact h2.1 rest
  · show R1 ((e1 ++ e2).take k) >>= K = _
    by_cases hlt : k < e1.length
    · rw [List.take_append_of_le_length (Nat.le_of_lt hlt), h1.2 k hlt]
      rfl
    · have hge : e1.length ≤ k := Nat.le_of_not_lt hlt
      have hk2 : k - e1.length < e2.length := by
        rw [List.length_append] at hk
        omega
      rw [List.take_append_eq_append_take, List.take_of_length_le hge, h1.1]
      exact h2.2 _ hk2

theorem Decodes.map {α β : Type} {R1 : List Byte → Except Exception (α × List Byte)}
    {K : α × List Byte → Except Exception (β × List Byte)} {e1 : List Byte} {v1 : α} {v2 : β}
    (h1 : Decodes R1 e1 v1) (h2 : ∀ bs, K (v1, bs) = .ok (v2, bs)) :
    Decodes (fun bs => R1 bs >>= K) e1 v2 := by
  refine ⟨fun rest => ?_, fun k hk => ?_⟩
  · show R1 (e1 ++ rest) >>= K = _
    rw [h1.1]
    exact h2 rest
  · show R1 (e1.take k) >>= K = _
    rw [h1.2 k hk]
    rfl

theorem decodes_read_u16 (v : Nat) (hv : v < 2 ^ 16) : Decodes read_u16 (encodeU16 v) v := by
  refine ⟨fun rest => ?_, fun k hk => ?_⟩
  · have : v % 256 + 256 * (v / 256 % 256) = v := by omega
    simp [encodeU16, read_u16, Fin.ofNat, this]
  · simp only [encodeU16, List.length_cons, List.length_nil] at hk
    interval_cases k <;> rfl

theorem decodes_read_u32 (v : Nat) (hv : v < 2 ^ 32) : Decodes read_u32 (encodeU32 v) v := by
  refine ⟨fun rest => ?_, fun k hk => ?_⟩
  · have : v % 256 + 256 * (v / 256 % 256) + 65536 * (v / 65536 % 256)
        + 16777216 * (v / 16777216 % 256) = v := by omega
    simp [encodeU32, read_u32, Fin.ofNat, this]
  · simp only [encodeU32, List.length_cons, List.length_nil] at hk
    interval_cases k <;> rfl

theorem decodes_readRect (r : RectData) (hr : r.InRange) :
    Decodes readRect (encodeRect r) r := by
  obtain ⟨hx, hy, hw, hh⟩ := hr
  unfold readRect encodeRect
  simp only [List.append_assoc]
  refine Decodes.bind (decodes_read_u16 _ hx) ?_
  dsimp only
  refine Decodes.bind (decodes_read_u16 _ hy) ?_
  dsimp only
  refine Decodes.bind (decodes_read_u16 _ hw) ?_
  dsimp only
  exact Decodes.map (decodes_read_u16 _ hh) (fun _ => rfl)

theorem decodes_readRun (r : RunData) (hr : r.InRange) :
    Decodes readRun (encodeRun r) r := by
  obtain ⟨hy, hx, hl⟩ := hr
  unfold readRun encodeRun
  simp only [List.append_assoc]
  refine Decodes.bind (decodes_read_u16 _ hy) ?_
  dsimp only
  refine Decodes.bind (decodes_read_u16 _ hx) ?_
  dsimp only
  exact Decodes.map (decodes_read_u16 _ hl) (fun _ => rfl)

theorem decodes_readRects (rs : List RectData) (hrs : ∀ r ∈ rs, r.InRange) :
    Decodes (readRects rs.length) (encodeRects rs) rs := by
  induction rs with
  | nil => exact ⟨fun _ => rfl, fun k hk => absurd hk (Nat.not_lt_zero k)⟩
  | cons r rs ih =>
    have h1 := decodes_readRect r (hrs r (List.mem_cons_self _ _))
    have h2 := ih (fun x hx => hrs x (List.mem_cons_of_mem _ hx))
    exact Decodes.bind h1 (Decodes.map h2 (fun _ => rfl))

theorem decodes_readRuns (rs : List RunData) (hrs : ∀ r ∈ rs, r.InRange) :
    Decodes (readRuns rs.length) (encodeRuns rs) rs := by
  induction rs with
  | nil => exact ⟨fun _ => rfl, fun k hk => absurd hk (Nat.not_lt_zero k)⟩
  | cons r rs ih =>
    have h1 := decodes_readRun r (hrs r (List.mem_cons_self _ _))
    have h2 := ih (fun x hx => hrs x (List.mem_cons_of_mem _ hx))
    exact Decodes.bind h1 (Decodes.map h2 (fun _ => rfl))


theorem allocate_of_grants {alloc : Allocator} {req : AllocRequest} (h : alloc.grants req) :
    allocate alloc req = .ok () := by
  unfold allocate
  rw [if_pos h]

theorem Decodes.guard {β : Type} {m : Except Exception Unit}
    {K : Unit → List Byte → Except Exception (β × List Byte)} {e : List Byte} {v : β}
    (hm : m = .ok ()) (h : Decodes (K ()) e v) :
    Decodes (fun bs => m >>= fun u => K u bs) e v := by
  subst hm
  exact h

theorem decodes_readFrame (alloc : Allocator) (i : Nat) (f : FrameData) (hf : f.InRange)
    (h1 : alloc.grants (AllocRequest.big_rects i f.big_rects.length))
    (h2 : alloc.grants (AllocRequest.runs i f.runs.length)) :
    Decodes (readFrame alloc i) (encodeFrame f) f := by
  obtain ⟨hn, hm, hrects, hruns⟩ := hf
  unfold readFrame encodeFrame
  simp only [List.append_assoc]
  refine Decodes.bind (decodes_read_u32 _ hn) ?_
  dsimp only
  refine Decodes.guard (allocate_of_grants h1) ?_
  refine Decodes.bind (decodes_readRects _ hrects) ?_
  dsimp only
  refine Decodes.bind (decodes_read_u32 _ hm) ?_
  dsimp only
  refine Decodes.guard (allocate_of_grants h2) ?_
  exact Decodes.map (decodes_readRuns _ hruns) (fun _ => rfl)

theorem decodes_readFrames (alloc : Allocator) :
    ∀ (fs : List FrameData) (i : Nat), (∀ f ∈ fs, f.InRange) →
      (∀ (j : Nat) (f : FrameData), fs[j]? = some f →
        alloc.grants (AllocRequest.big_rects (i + j) f.big_rects.length) ∧
          alloc.grants (AllocRequest.runs (i + j) f.runs.length)) →
      Decodes (readFrames alloc fs.length i) (encodeFrames fs) fs := by
  intro fs
  induction fs with
  | nil =>
    intro i _ _
    exact ⟨fun _ => rfl, fun k hk => absurd hk (Nat.not_lt_zero k)⟩
  | cons f fs ih =>
    intro i hfs hg
    have hg0 := hg 0 f (by simp)
    have h1 := decodes_readFrame alloc i f (hfs f (List.mem_cons_self _ _)) hg0.1 hg0.2
    have h2 := ih (i + 1) (fun x hx => hfs x (List.mem_cons_of_mem _ hx)) (fun j g hj => by
      have := hg (j + 1) g (by simpa using hj)
      rw [show i + 1 + j = i + (j + 1) by omega]
      exact this)
    exact Decodes.bind h1 (Decodes.map h2 (fun _ => rfl))

theorem parse_eq_parseReader (alloc : Allocator) (data : List Byte) :
    ResourceLoader.Parse alloc data = (parseReader alloc data).map Prod.fst := by
  unfold ResourceLoader.Parse parseReader
  cases read_u32 data with
  | error e => rfl
  | ok p1 =>
    show (read_u32 p1.2 >>= _) = Except.map Prod.fst (read_u32 p1.2 >>= _)
    cases read_u32 p1.2 with
    | error e => rfl
    | ok p2 =>
      show (read_u32 p2.2 >>= _) = Except.map Prod.fst (read_u32 p2.2 >>= _)
      cases read_u32 p2.2 with
      | error e => rfl
      | ok p3 =>
        show (read_u32 p3.2 >>= _) = Except.map Prod.fst (read_u32 p3.2 >>= _)
        cases read_u32 p3.2 with
        | error e => rfl
        | ok p4 =>
          show (allocate alloc (AllocRequest.frames p4.1) >>= _)
            = Except.map Prod.fst (allocate alloc (AllocRequest.frames p4.1) >>= _)
          cases allocate alloc (AllocRequest.frames p4.1) with
          | error e => rfl
          | ok u =>
            show (readFrames alloc p4.1 0 p4.2 >>= _)
              = Except.map Prod.fst (readFrames alloc p4.1 0 p4.2 >>= _)
            cases readFrames alloc p4.1 0 p4.2 with
            | error e => rfl
            | ok p5 => rfl

theorem decodes_parseReader (alloc : Allocator) (v : VideoData) (hv : v.InRange)
    (hg : alloc.Grants v) : Decodes (parseReader alloc) (encodeVideo v) v := by
  obtain ⟨hw, hh, hf, hn, hfs⟩ := hv
  unfold parseReader encodeVideo
  simp only [List.append_assoc]
  refine Decodes.bind (decodes_read_u32 _ hw) ?_
  dsimp only
  refine Decodes.bind (decodes_read_u32 _ hh) ?_
  dsimp only
  refine Decodes.bind (decodes_read_u32 _ hf) ?_
  dsimp only
  refine Decodes.bind (decodes_read_u32 _ hn) ?_
  dsimp only
  refine Decodes.guard (allocate_of_grants hg.1) ?_
  refine Decodes.map (decodes_readFrames alloc _ 0 hfs (fun j f hj => ?_)) (fun _ => rfl)
  rw [Nat.zero_add]
  obtain ⟨hlt, heq⟩ := List.getElem?_eq_some.mp hj
  have := hg.2 j hlt
  rw [List.get_eq_getElem, heq] at this
  exact this

/-! ### A heap can only turn a run of `Parse` into `std::bad_alloc` -/

theorem sameOrBadAlloc_refl {α : Type} (x : Except Exception α) : SameOrBadAlloc x x :=
  Or.inl rfl

theorem sameOrBadAlloc_bind {α β : Type} {x y : Except Exception α}
    {f g : α → Except Exception β} (h : SameOrBadAlloc x y)
    (hfg : ∀ a, SameOrBadAlloc (f a) (g a)) : SameOrBadAlloc (x >>= f) (y >>= g) := by
  rcases h with h | h
  · subst h
    cases x with
    | error e => exact Or.inl rfl
    | ok a => exact hfg a
  · subst h
    exact Or.inr rfl

theorem sameOrBadAlloc_allocate (alloc : Allocator) (req : AllocRequest) :
    SameOrBadAlloc (allocate alloc req) (allocate plentifulHeap req) := by
  have hp : allocate plentifulHeap req = .ok () := allocate_of_grants (Or.inr rfl)
  rw [hp]
  unfold allocate
  by_cases h : alloc.grants req
  · rw [if_pos h]
    exact Or.inl rfl
  · rw [if_neg h]
    exact Or.inr rfl

theorem sameOrBadAlloc_readFrame (alloc : Allocator) (i : Nat) (bs : List Byte) :
    SameOrBadAlloc (readFrame alloc i bs) (readFrame plentifulHeap i bs) := by
  unfold readFrame
  refine sameOrBadAlloc_bind (sameOrBadAlloc_refl _) (fun p1 => ?_)
  refine sameOrBadAlloc_bind (sameOrBadAlloc_allocate alloc _) (fun _ => ?_)
  refine sameOrBadAlloc_bind (sameOrBadAlloc_refl _) (fun p2 => ?_)
  refine sameOrBadAlloc_bind (sameOrBadAlloc_refl _) (fun p3 => ?_)
  refine sameOrBadAlloc_bind (sameOrBadAlloc_allocate alloc _) (fun _ => ?_)
  exact sameOrBadAlloc_refl _

theorem sameOrBadAlloc_readFrames (alloc : Allocator) :
    ∀ (n i : Nat) (bs : List Byte),
      SameOrBadAlloc (readFrames alloc n i bs) (readFrames plentifulHeap n i bs) := by
  intro n
  induction n with
  | zero => intro i bs; exact Or.inl rfl
  | succ n ih =>
    intro i bs
    rw [readFrames, readFrames]
    refine sameOrBadAlloc_bind (sameOrBadAlloc_readFrame alloc i bs) (fun p1 => ?_)
    exact sameOrBadAlloc_bind (ih (i + 1) p1.2) (fun _ => sameOrBadAlloc_refl _)

theorem sameOrBadAlloc_Parse (alloc : Allocator) (data : List Byte) :
    SameOrBadAlloc (ResourceLoader.Parse alloc data) (ResourceLoader.Parse plentifulHeap data) := by
  unfold ResourceLoader.Parse
  refine sameOrBadAlloc_bind (sameOrBadAlloc_refl _) (fun p1 => ?_)
  refine sameOrBadAlloc_bind (sameOrBadAlloc_refl _) (fun p2 => ?_)
  refine sameOrBadAlloc_bind (sameOrBadAlloc_refl _) (fun p3 => ?_)
  refine sameOrBadAlloc_bind (sameOrBadAlloc_refl _) (fun p4 => ?_)
  refine sameOrBadAlloc_bind (sameOrBadAlloc_allocate alloc _) (fun _ => ?_)
  exact sameOrBadAlloc_bind (sameOrBadAlloc_readFrames alloc _ _ _) (fun _ => sameOrBadAlloc_refl _)

theorem plentifulHeap_Grants (v : VideoData) : plentifulHeap.Grants v :=
  ⟨Or.inr rfl, fun _ _ => ⟨Or.inr rfl, Or.inr rfl⟩⟩

theorem encodeFrames_replicate_length (f : FrameData) (n : Nat) :
    (encodeFrames (List.replicate n f)).length = n * (encodeFrame f).length := by
  induction n with
  | zero => simp [encodeFrames]
  | succ n ih =>
    rw [List.replicate_succ, encodeFrames, List.length_append, ih]
    ring

theorem longVideo_InRange : longVideo.InRange := by
  refine ⟨by decide, by decide, by decide, ?_, ?_⟩
  · show (List.replicate (2 ^ 32 - 1) _).length < 2 ^ 32
    rw [List.length_replicate]
    decide
  · intro f hf
    have : f = { big_rects := [], runs := [] } := List.eq_of_mem_replicate hf
    subst this
    decide

/-- C2 (truncation), counterexample: the first 16 bytes of the encoding of a video of
`2^32 - 1` frames are a header that declares `frame_count = 0xFFFFFFFF`; on a heap that does
not grant `frames.reserve(0xFFFFFFFF)`, `Parse` leaves with `std::bad_alloc` before any
frame is read, not with `Unexpected EOF`. -/
theorem truncated_header_bad_alloc :
    longVideo.InRange ∧ 16 < (encodeVideo longVideo).length ∧
      ResourceLoader.Parse limitedHeap ((encodeVideo longVideo).take 16)
        = .error Exception.bad_alloc := by
  refine ⟨longVideo_InRange, ?_, ?_⟩
  · simp only [encodeVideo, longVideo, List.length_append, encodeFrames_replicate_length,
      List.length_replicate]
    decide
  · have h16 : (encodeVideo longVideo).take 16 =
        encodeU32 2 ++ encodeU32 1 ++ encodeU32 30 ++ encodeU32 (2 ^ 32 - 1) := by
      unfold encodeVideo
      simp only [longVideo, List.length_replicate]
      exact List.take_left' rfl
    rw [h16]
    decide

/-- C2 (truncation), as the code has it.  For every video model in the range of the format,
every length `k` strictly below the length of its section-4.1 encoding and every heap, `Parse`
on the first `k` bytes of the encoding returns no model: it throws `Unexpected EOF`, or
`std::bad_alloc` when a `reserve` / `resize` on a declared count is not granted; and when the
heap grants the requests of the model, it throws `Unexpected EOF`. -/
theorem parse_truncated (alloc : Allocator) (v : VideoData) (hv : v.InRange) (k : Nat)
    (hk : k < (encodeVideo v).length) :
    (ResourceLoader.Parse alloc ((encodeVideo v).take k)
        = .error (Exception.runtime_error "Unexpected EOF") ∨
      ResourceLoader.Parse alloc ((encodeVideo v).take k) = .error Exception.bad_alloc) ∧
    (alloc.Grants v → ResourceLoader.Parse alloc ((encodeVideo v).take k)
        = .error (Exception.runtime_error "Unexpected EOF")) := by
  have strong : ∀ a : Allocator, a.Grants v →
      ResourceLoader.Parse a ((encodeVideo v).take k)
        = .error (Exception.runtime_error "Unexpected EOF") := by
    intro a ha
    rw [parse_eq_parseReader, (decodes_parseReader a v hv ha).2 k hk]
    rfl
  refine ⟨?_, strong alloc⟩
  rcases sameOrBadAlloc_Parse alloc ((encodeVideo v).take k) with h | h
  · rw [h, strong plentifulHeap (plentifulHeap_Grants v)]
    exact Or.inl rfl
  · exact Or.inr h

theorem parse_truncated_witness :
    (exampleVideo.InRange ∧ 43 < (encodeVideo exampleVideo).length) ∧
      ResourceLoader.Parse limitedHeap ((encodeVideo exampleVideo).take 43)
        = .error (Exception.runtime_error "Unexpected EOF") :=
  have h : exampleVideo.InRange := by decide
  ⟨⟨h, by decide⟩,
    (parse_truncated limitedHeap exampleVideo h 43 (by decide)).2 (by decide)⟩

/-! ### What a successful `Parse` consumed -/

/-- A bind in `Except` that returns a value: its first step returned one, and the
continuation returned the value from it. -/
theorem bind_ok_inv {ε α β : Type} (m : Except ε α) (k : α → Except ε β) (out : β) :
    (m >>= k) = Except.ok out → ∃ mid, m = Except.ok mid ∧ k mid = Except.ok out := by
  intro hbind
  match m, hbind with
  | Except.ok mid, hbind => exact ⟨mid, rfl, hbind⟩

theorem read_u16_length {bs rest : List Byte} {v : Nat} (h : read_u16 bs = .ok (v, rest)) :
    bs.length = rest.length + 2 := by
  match bs, h with
  | b0 :: b1 :: tl, h =>
    simp only [read_u16, Except.ok.injEq, Prod.mk.injEq] at h
    rw [← h.2]
    rfl

theorem read_u32_length {bs rest : List Byte} {v : Nat} (h : read_u32 bs = .ok (v, rest)) :
    bs.length = rest.length + 4 := by
  match bs, h with
  | b0 :: b1 :: b2 :: b3 :: tl, h =>
    simp only [read_u32, Except.ok.injEq, Prod.mk.injEq] at h
    rw [← h.2]
    rfl

theorem readRect_length {bs rest : List Byte} {r : RectData} (h : readRect bs = .ok (r, rest)) :
    bs.length = rest.length + 8 := by
  unfold readRect at h
  obtain ⟨p1, h1, h⟩ := bind_ok_inv _ _ _ h
  obtain ⟨p2, h2, h⟩ := bind_ok_inv _ _ _ h
  obtain ⟨p3, h3, h⟩ := bind_ok_inv _ _ _ h
  obtain ⟨p4, h4, h⟩ := bind_ok_inv _ _ _ h
  have h5 : p4.2 = rest := by
    injection h with h
    exact congrArg Prod.snd h
  have e1 := read_u16_length h1
  have e2 := read_u16_length h2
  have e3 := read_u16_length h3
  have e4 := read_u16_length h4
  rw [h5] at e4
  omega

theorem readRects_length : ∀ (n : Nat) {bs rest : List Byte} {rs : List RectData},
    readRects n bs = .ok (rs, rest) → rs.length = n ∧ bs.length = rest.length + 8 * n := by
  intro n
  induction n with
  | zero =>
    intro bs rest rs h
    simp only [readRects, Except.ok.injEq, Prod.mk.injEq] at h
    rw [← h.1, ← h.2]
    exact ⟨rfl, rfl⟩
  | succ n ih =>
    intro bs rest rs h
    rw [readRects] at h
    obtain ⟨p1, h1, h⟩ := bind_ok_inv _ _ _ h
    obtain ⟨p2, h2, h⟩ := bind_ok_inv _ _ _ h
    have e1 := readRect_length h1
    have e2 := ih h2
    injection h with h
    have hrs : p1.1 :: p2.1 = rs := congrArg Prod.fst h
    have hrest : p2.2 = rest := congrArg Prod.snd h
    rw [← hrs, ← hrest, List.length_cons]
    omega

theorem readRuns_length : ∀ (n : Nat) {bs rest : List Byte} {rs : List RunData},
    readRuns n bs = .ok (rs, rest) → rest.length ≤ bs.length := by
  intro n
  induction n with
  | zero =>
    intro bs rest rs h
    simp only [readRuns, Except.ok.injEq, Prod.mk.injEq] at h
    rw [← h.2]
  | succ n ih =>
    intro bs rest rs h
    rw [readRuns] at h
    obtain ⟨p1, h1, h⟩ := bind_ok_inv _ _ _ h
    obtain ⟨p2, h2, h⟩ := bind_ok_inv _ _ _ h
    unfold readRun at h1
    obtain ⟨q1, g1, h1⟩ := bind_ok_inv _ _ _ h1
    obtain ⟨q2, g2, h1⟩ := bind_ok_inv _ _ _ h1
    obtain ⟨q3, g3, h1⟩ := bind_ok_inv _ _ _ h1
    have e1 := read_u16_length g1
    have e2 := read_u16_length g2
    have e3 := read_u16_length g3
    have e4 := ih h2
    injection h1 with h1
    have hq : q3.2 = p1.2 := congrArg Prod.snd h1
    injection h with h
    have hrest : p2.2 = rest := congrArg Prod.snd h
    rw [hq] at e3
    rw [hrest] at e4
    omega

theorem readFrame_length {alloc : Allocator} {i : Nat} {bs rest : List Byte} {f : FrameData}
    (h : readFrame alloc i bs = .ok (f, rest)) :
    8 * f.big_rects.length + rest.length ≤ bs.length := by
  unfold readFrame at h
  obtain ⟨p1, h1, h⟩ := bind_ok_inv _ _ _ h
  obtain ⟨_, _, h⟩ := bind_ok_inv _ _ _ h
  obtain ⟨p2, h2, h⟩ := bind_ok_inv _ _ _ h
  obtain ⟨p3, h3, h⟩ := bind_ok_inv _ _ _ h
  obtain ⟨_, _, h⟩ := bind_ok_inv _ _ _ h
  obtain ⟨p4, h4, h⟩ := bind_ok_inv _ _ _ h
  have e1 := read_u32_length h1
  have e2 := readRects_length _ h2
  have e3 := read_u32_length h3
  have e4 := readRuns_length _ h4
  injection h with h
  have hf : ({ big_rects := p2.1, runs := p4.1 } : FrameData) = f := congrArg Prod.fst h
  have hrest : p4.2 = rest := congrArg Prod.snd h
  rw [← hf, ← hrest]
  dsimp only
  omega

theorem readFrames_length {alloc : Allocator} :
    ∀ (n : Nat) {i : Nat} {bs rest : List Byte} {fs : List FrameData},
      readFrames alloc n i bs = .ok (fs, rest) →
        rest.length ≤ bs.length ∧ ∀ f ∈ fs, 8 * f.big_rects.length ≤ bs.length := by
  intro n
  induction n with
  | zero =>
    intro i bs rest fs h
    simp only [readFrames, Except.ok.injEq, Prod.mk.injEq] at h
    rw [← h.1, ← h.2]
    exact ⟨le_refl _, fun f hf => by cases hf⟩
  | succ n ih =>
    intro i bs rest fs h
    rw [readFrames] at h
    obtain ⟨p1, h1, h⟩ := bind_ok_inv _ _ _ h
    obtain ⟨p2, h2, h⟩ := bind_ok_inv _ _ _ h
    have e1 := readFrame_length h1
    have e2 := ih h2
    injection h with h
    have hfs : p1.1 :: p2.1 = fs := congrArg Prod.fst h
    have hrest : p2.2 = rest := congrArg Prod.snd h
    rw [← hfs, ← hrest]
    refine ⟨by omega, fun f hf => ?_⟩
    rcases List.mem_cons.mp hf with h' | h'
    · rw [h']
      omega
    · have := e2.2 f h'
      omega

/-- Every frame of a video that `Parse` returns has at most `size / 8` rectangles.  The
resource size is a `DWORD`, so the rectangle count of a decoded frame is below `2^29`: it
fits `int`. -/
theorem parsed_frame_fits_int (alloc : Allocator) (data : List Byte) (v : VideoData)
    (h : ResourceLoader.Parse alloc data = .ok v) (hsize : data.length < 2 ^ 32) :
    ∀ f ∈ v.frames, f.big_rects.length < 2 ^ 31 := by
  unfold ResourceLoader.Parse at h
  obtain ⟨p1, h1, h⟩ := bind_ok_inv _ _ _ h
  obtain ⟨p2, h2, h⟩ := bind_ok_inv _ _ _ h
  obtain ⟨p3, h3, h⟩ := bind_ok_inv _ _ _ h
  obtain ⟨p4, h4, h⟩ := bind_ok_inv _ _ _ h
  obtain ⟨_, _, h⟩ := bind_ok_inv _ _ _ h
  obtain ⟨p5, h5, h⟩ := bind_ok_inv _ _ _ h
  have e1 := read_u32_length h1
  have e2 := read_u32_length h2
  have e3 := read_u32_length h3
  have e4 := read_u32_length h4
  have e5 := readFrames_length _ h5
  injection h with h
  intro f hf
  rw [← h] at hf
  have := e5.2 f hf
  omega


/-! ## Rounding: known values, and monotonicity -/

/-- The rounding on known values: `0.1` and `1/3` as `double`
(`0x3FB999999999999A`, `0x3FD5555555555555`), `0.1f` and `0.7f` as `float`
(`0x3DCCCCCD`, `0x3F333333`), and the ties `5/2` and `7/2` at two significant bits, which go
to the even neighbours 2 and 4. -/
theorem flRound_known_values :
    (flRound 53 1 10 = 0x1999999999999A * 2 ∧ flShift 53 10 = 56 + 1) ∧
      (flRound 53 1 3 = 0x15555555555555 * 2 ∧ flShift 53 3 = 54 + 1) ∧
      (flRound 24 1 10 = 0xCCCCCD * 2 ∧ flShift 24 10 = 27 + 1) ∧
      (flRound 24 7 10 = 0xB33333 * 2 ^ 4 ∧ flShift 24 10 = 24 + 4) ∧
      (flRound 2 5 2 = 2 * 2 ^ 4 ∧ flRound 2 7 2 = 4 * 2 ^ 4 ∧ flShift 2 2 = 4) := by
  decide


theorem floorLog2Aux_eq (fuel n : Nat) (h : n ≤ fuel) : floorLog2Aux fuel n = Nat.log2 n := by
  induction fuel generalizing n with
  | zero =>
    have : n = 0 := by omega
    subst this
    rw [floorLog2Aux, Nat.log2]
    simp
  | succ fuel ih =>
    rw [floorLog2Aux, Nat.log2]
    by_cases h2 : n < 2
    · rw [if_pos h2, if_neg (by omega)]
    · rw [if_neg h2, if_pos (by omega), ih (n / 2) (by omega)]

theorem floorLog2_eq (n : Nat) : floorLog2 n = Nat.log2 n :=
  floorLog2Aux_eq n n (le_refl n)

theorem floorLog2_pow_le {n : Nat} (h : n ≠ 0) : 2 ^ floorLog2 n ≤ n := by
  rw [floorLog2_eq]
  exact Nat.log2_self_le h

theorem floorLog2_lt (n : Nat) : n < 2 ^ (floorLog2 n + 1) := by
  rw [floorLog2_eq]
  exact Nat.lt_log2_self

theorem floorLog2_mono {n m : Nat} (h : n ≤ m) : floorLog2 n ≤ floorLog2 m := by
  rw [floorLog2_eq, floorLog2_eq, Nat.log2_eq_log_two, Nat.log2_eq_log_two]
  exact Nat.log_mono_right h

theorem roundHalfEven_ge (n d : Nat) : n / d ≤ roundHalfEven n d := by
  unfold roundHalfEven
  split_ifs <;> omega

theorem roundHalfEven_le (n d : Nat) : roundHalfEven n d ≤ n / d + 1 := by
  unfold roundHalfEven
  split_ifs <;> omega

theorem roundHalfEven_mono {n1 n2 : Nat} (d : Nat) (h : n1 ≤ n2) :
    roundHalfEven n1 d ≤ roundHalfEven n2 d := by
  have hf : n1 / d ≤ n2 / d := Nat.div_le_div_right h
  rcases Nat.lt_or_eq_of_le hf with hlt | heq
  · exact le_trans (roundHalfEven_le n1 d) (le_trans hlt (roundHalfEven_ge n2 d))
  · have e1 := Nat.div_add_mod n1 d
    have e2 := Nat.div_add_mod n2 d
    have hr : n1 % d ≤ n2 % d := by
      rw [heq] at e1
      omega
    unfold roundHalfEven
    rw [heq]
    split_ifs <;> omega

theorem le_roundHalfEven {n d c : Nat} (hd : 0 < d) (h : c * d ≤ n) : c ≤ roundHalfEven n d :=
  le_trans ((Nat.le_div_iff_mul_le hd).mpr h) (roundHalfEven_ge n d)

theorem roundHalfEven_le_of_lt {n d c : Nat} (h : n < c * d) : roundHalfEven n d ≤ c :=
  le_trans (roundHalfEven_le n d) (Nat.succ_le_of_lt ((Nat.div_lt_iff_lt_mul (by
    rcases Nat.eq_zero_or_pos d with h0 | h0
    · subst h0; simp at h
    · exact h0)).mpr h))

/-- Rounding is monotone in the numerator. -/
theorem flRound_mono (p b : Nat) (hp : 1 ≤ p) {a1 a2 : Nat} (h : a1 ≤ a2) :
    flRound p a1 b ≤ flRound p a2 b := by
  unfold flRound
  by_cases hb : b = 0
  · rw [if_pos hb, if_pos hb]
  rw [if_neg hb, if_neg hb]
  have hbpos : 0 < b := Nat.pos_of_ne_zero hb
  dsimp only
  rcases Nat.eq_zero_or_pos a1 with h0 | hpos1
  · subst h0
    have : roundHalfEven (0 * 2 ^ flShift p b) (b * 2 ^ (floorLog2 (0 * 2 ^ flShift p b / b) - (p - 1))) = 0 := by
      rw [Nat.zero_mul]
      unfold roundHalfEven
      simp
    rw [this, Nat.zero_mul]
    exact Nat.zero_le _
  have hpos2 : 0 < a2 := lt_of_lt_of_le hpos1 h
  -- facts for a positive numerator
  have key : ∀ a, 0 < a →
      2 ^ (p - 1) * (b * 2 ^ (floorLog2 (a * 2 ^ flShift p b / b) - (p - 1))) ≤ a * 2 ^ flShift p b ∧
      a * 2 ^ flShift p b < 2 ^ p * (b * 2 ^ (floorLog2 (a * 2 ^ flShift p b / b) - (p - 1))) ∧
      p ≤ floorLog2 (a * 2 ^ flShift p b / b) := by
    intro a ha
    have hb2 : b < 2 ^ (floorLog2 b + 1) := floorLog2_lt b
    have hY : 2 ^ p ≤ a * 2 ^ flShift p b / b := by
      rw [Nat.le_div_iff_mul_le hbpos]
      unfold flShift
      calc 2 ^ p * b ≤ 2 ^ p * 2 ^ (floorLog2 b + 1) := Nat.mul_le_mul_left _ (le_of_lt hb2)
        _ = 2 ^ (p + floorLog2 b + 1) := by rw [← pow_add]; congr 1
        _ ≤ a * 2 ^ (p + floorLog2 b + 1) := Nat.le_mul_of_pos_left _ ha
    have hYne : a * 2 ^ flShift p b / b ≠ 0 := by
      have : 0 < 2 ^ p := Nat.two_pow_pos _
      omega
    have hE : p ≤ floorLog2 (a * 2 ^ flShift p b / b) := by
      by_contra hlt
      have h1 := floorLog2_lt (a * 2 ^ flShift p b / b)
      have h2 : 2 ^ (floorLog2 (a * 2 ^ flShift p b / b) + 1) ≤ 2 ^ p :=
        Nat.pow_le_pow_right (by norm_num) (by omega)
      omega
    have hlow := floorLog2_pow_le hYne
    have hhigh := floorLog2_lt (a * 2 ^ flShift p b / b)
    rw [Nat.le_div_iff_mul_le hbpos] at hlow
    rw [Nat.div_lt_iff_lt_mul hbpos] at hhigh
    generalize floorLog2 (a * 2 ^ flShift p b / b) = E at hE hlow hhigh ⊢
    obtain ⟨e, rfl⟩ : ∃ e, E = e + p := ⟨E - p, by omega⟩
    have he : e + p - (p - 1) = e + 1 := by omega
    rw [he]
    refine ⟨?_, ?_, by omega⟩
    · calc 2 ^ (p - 1) * (b * 2 ^ (e + 1)) = 2 ^ ((p - 1) + (e + 1)) * b := by
            rw [pow_add]; ring
        _ = 2 ^ (e + p) * b := by congr 2; omega
        _ ≤ _ := hlow
    · calc a * 2 ^ flShift p b < 2 ^ (e + p + 1) * b := hhigh
        _ = 2 ^ p * (b * 2 ^ (e + 1)) := by
            rw [show e + p + 1 = p + (e + 1) by omega, pow_add]; ring
  obtain ⟨l1, u1, E1⟩ := key a1 hpos1
  obtain ⟨l2, u2, E2⟩ := key a2 hpos2
  have hX : a1 * 2 ^ flShift p b ≤ a2 * 2 ^ flShift p b := Nat.mul_le_mul_right _ h
  have hE : floorLog2 (a1 * 2 ^ flShift p b / b) ≤ floorLog2 (a2 * 2 ^ flShift p b / b) :=
    floorLog2_mono (Nat.div_le_div_right hX)
  generalize a1 * 2 ^ flShift p b = X1 at *
  generalize a2 * 2 ^ flShift p b = X2 at *
  generalize floorLog2 (X1 / b) = F1 at *
  generalize floorLog2 (X2 / b) = F2 at *
  rcases Nat.lt_or_eq_of_le hE with hlt | heq
  · have hd1 : 0 < b * 2 ^ (F1 - (p - 1)) := Nat.mul_pos hbpos (Nat.two_pow_pos _)
    have hd2 : 0 < b * 2 ^ (F2 - (p - 1)) := Nat.mul_pos hbpos (Nat.two_pow_pos _)
    have m1 : roundHalfEven X1 (b * 2 ^ (F1 - (p - 1))) ≤ 2 ^ p := roundHalfEven_le_of_lt u1
    have m2 : 2 ^ (p - 1) ≤ roundHalfEven X2 (b * 2 ^ (F2 - (p - 1))) := le_roundHalfEven hd2 l2
    calc roundHalfEven X1 (b * 2 ^ (F1 - (p - 1))) * 2 ^ (F1 - (p - 1))
        ≤ 2 ^ p * 2 ^ (F1 - (p - 1)) := Nat.mul_le_mul_right _ m1
      _ = 2 ^ (p + (F1 - (p - 1))) := by rw [pow_add]
      _ ≤ 2 ^ ((p - 1) + (F2 - (p - 1))) := Nat.pow_le_pow_right (by norm_num) (by omega)
      _ = 2 ^ (p - 1) * 2 ^ (F2 - (p - 1)) := by rw [pow_add]
      _ ≤ _ := Nat.mul_le_mul_right _ m2
  · rw [heq]
    have hd2 : 0 < b * 2 ^ (F2 - (p - 1)) := Nat.mul_pos hbpos (Nat.two_pow_pos _)
    exact Nat.mul_le_mul_right _ (roundHalfEven_mono _ hX)

/-! ## The playback loop -/

theorem target_frame_mono (tps : Nat) (v : VideoData) {e1 e2 : Nat} (h : e1 ≤ e2) :
    target_frame tps v e1 ≤ target_frame tps v e2 := by
  unfold target_frame
  dsimp only
  apply Nat.div_le_div_right
  apply flRound_mono 53 _ (by decide)
  apply Nat.mul_le_mul_right
  apply flRound_mono 53 _ (by decide)
  exact flRound_mono 53 1 (by decide) h

theorem tick_of_ge (tps : Nat) (v : VideoData) (s : LoopState) (q : Bool) (e : Nat)
    (h : v.frames.length ≤ target_frame tps v e) :
    tick tps v s q e = (Signal.Finished, { s with running := if q then false else s.running }) := by
  unfold tick
  dsimp only
  rw [if_pos h]

theorem tick_of_ne (tps : Nat) (v : VideoData) (s : LoopState) (q : Bool) (e : Nat)
    (h : target_frame tps v e < v.frames.length) (hc : target_frame tps v e ≠ s.current_frame) :
    tick tps v s q e = (Signal.Advance (target_frame tps v e),
      { current_frame := target_frame tps v e, running := if q then false else s.running }) := by
  unfold tick
  dsimp only
  rw [if_neg (Nat.not_le.mpr h), if_pos hc]

theorem tick_of_eq (tps : Nat) (v : VideoData) (s : LoopState) (q : Bool) (e : Nat)
    (h : target_frame tps v e < v.frames.length) (hc : target_frame tps v e = s.current_frame) :
    tick tps v s q e = (Signal.Idle, { s with running := if q then false else s.running }) := by
  unfold tick
  dsimp only
  rw [if_neg (Nat.not_le.mpr h), if_neg (not_not.mpr hc)]

theorem tick_finished_iff (tps : Nat) (v : VideoData) (s : LoopState) (q : Bool) (e : Nat) :
    (tick tps v s q e).1 = Signal.Finished ↔ v.frames.length ≤ target_frame tps v e := by
  by_cases h : v.frames.length ≤ target_frame tps v e
  · rw [tick_of_ge tps v s q e h]
    exact ⟨fun _ => h, fun _ => rfl⟩
  · have hlt := Nat.lt_of_not_ge h
    by_cases hc : target_frame tps v e = s.current_frame
    · rw [tick_of_eq tps v s q e hlt hc]
      exact ⟨fun h' => (by cases h'), fun h' => absurd h' h⟩
    · rw [tick_of_ne tps v s q e hlt hc]
      exact ⟨fun h' => (by cases h'), fun h' => absurd h' h⟩

theorem tick_advance_lt (tps : Nat) (v : VideoData) (s : LoopState) (q : Bool) (e n : Nat)
    (h : (tick tps v s q e).1 = Signal.Advance n) :
    n = target_frame tps v e ∧ n < v.frames.length ∧ n ≠ s.current_frame := by
  by_cases hf : v.frames.length ≤ target_frame tps v e
  · rw [tick_of_ge tps v s q e hf] at h
    cases h
  · have hlt := Nat.lt_of_not_ge hf
    by_cases hc : target_frame tps v e = s.current_frame
    · rw [tick_of_eq tps v s q e hlt hc] at h
      cases h
    · rw [tick_of_ne tps v s q e hlt hc] at h
      injection h with h
      subst h
      exact ⟨rfl, hlt, hc⟩

theorem tick_running (tps : Nat) (v : VideoData) (s : LoopState) (q : Bool) (e : Nat) :
    (tick tps v s q e).2.running = (if q then false else s.running) := by
  by_cases hf : v.frames.length ≤ target_frame tps v e
  · rw [tick_of_ge tps v s q e hf]
  · have hlt := Nat.lt_of_not_ge hf
    by_cases hc : target_frame tps v e = s.current_frame
    · rw [tick_of_eq tps v s q e hlt hc]
    · rw [tick_of_ne tps v s q e hlt hc]

theorem runLoop_cons (tps : Nat) (v : VideoData) (s : LoopState) (q : Bool) (e : Nat)
    (rest : List (Bool × Nat)) :
    runLoop tps v s ((q, e) :: rest) =
      if s.running then
        if v.frames.length ≤ target_frame tps v e then [Signal.Finished]
        else (tick tps v s q e).1 :: runLoop tps v (tick tps v s q e).2 rest
      else [] := by
  rw [runLoop]
  by_cases hr : s.running = true
  · rw [if_pos hr, if_pos hr]
    by_cases hf : v.frames.length ≤ target_frame tps v e
    · rw [if_pos hf, tick_of_ge tps v s q e hf]
    · rw [if_neg hf]
      have hlt := Nat.lt_of_not_ge hf
      by_cases hc : target_frame tps v e = s.current_frame
      · rw [tick_of_eq tps v s q e hlt hc]
      · rw [tick_of_ne tps v s q e hlt hc]
  · rw [if_neg hr, if_neg hr]

/-- From any state whose `current_frame` is at most every coming target, on non-decreasing
samples, the rendered indices are strictly increasing and all above `current_frame`. -/
theorem runLoop_advanced_increasing (tps : Nat) (v : VideoData) :
    ∀ (samples : List (Bool × Nat)) (s : LoopState),
      (samples.map Prod.snd).Pairwise (· ≤ ·) →
      (∀ x ∈ samples, s.current_frame ≤ target_frame tps v x.2) →
      (advanced (runLoop tps v s samples)).Pairwise (· < ·) ∧
        ∀ n ∈ advanced (runLoop tps v s samples), s.current_frame < n := by
  intro samples
  induction samples with
  | nil =>
    intro s _ _
    exact ⟨List.Pairwise.nil, fun n hn => by cases hn⟩
  | cons x rest ih =>
    intro s hs hge
    obtain ⟨q, e⟩ := x
    rw [List.map_cons, List.pairwise_cons] at hs
    obtain ⟨hhead, htail⟩ := hs
    have hrest : ∀ y ∈ rest, target_frame tps v e ≤ target_frame tps v y.2 := fun y hy =>
      target_frame_mono tps v (hhead y.2 (List.mem_map_of_mem Prod.snd hy))
    have hcur : s.current_frame ≤ target_frame tps v e := hge (q, e) (List.mem_cons_self _ _)
    rw [runLoop_cons]
    by_cases hr : s.running = true
    · rw [if_pos hr]
      by_cases hf : v.frames.length ≤ target_frame tps v e
      · rw [if_pos hf]
        exact ⟨List.Pairwise.nil, fun n hn => by cases hn⟩
      · rw [if_neg hf]
        have hlt := Nat.lt_of_not_ge hf
        by_cases hc : target_frame tps v e = s.current_frame
        · rw [tick_of_eq tps v s q e hlt hc]
          exact ih _ htail (fun y hy => hge y (List.mem_cons_of_mem _ hy))
        · rw [tick_of_ne tps v s q e hlt hc]
          have h := ih { current_frame := target_frame tps v e,
                         running := if q then false else s.running } htail hrest
          have hgt : s.current_frame < target_frame tps v e :=
            Nat.lt_of_le_of_ne hcur (fun h' => hc h'.symm)
          refine ⟨List.pairwise_cons.mpr ⟨fun n hn => h.2 n hn, h.1⟩, fun n hn => ?_⟩
          rcases List.mem_cons.mp hn with h' | h'
          · rw [h']
            exact hgt
          · exact Nat.lt_trans hgt (h.2 n h')
    · rw [if_neg hr]
      exact ⟨List.Pairwise.nil, fun n hn => by cases hn⟩

/-- C3 (first frame), the code at the claim's input.  `current_frame` starts as the index 0,
not as "none": for every video with at least one frame, a first tick whose target index is 0
takes the `else` branch (the 1 ms sleep, `Idle`), it does not render frame 0; and on
non-decreasing clock samples frame 0 is never rendered by any later tick either. -/
theorem first_tick_target_zero_is_idle (tps : Nat) (v : VideoData) (q : Bool) (e : Nat)
    (rest : List (Bool × Nat)) (hne : 0 < v.frames.length) (h0 : target_frame tps v e = 0) :
    (tick tps v LoopState.initial q e).1 = Signal.Idle ∧
      (∃ tail, Application.MainLoop tps v ((q, e) :: rest) = Signal.Idle :: tail) ∧
      ∀ samples : List (Bool × Nat), (samples.map Prod.snd).Pairwise (· ≤ ·) →
        0 ∉ advanced (Application.MainLoop tps v samples) := by
  have hlt : target_frame tps v e < v.frames.length := by rw [h0]; exact hne
  have ht := tick_of_eq tps v LoopState.initial q e hlt h0
  refine ⟨by rw [ht], ?_, fun samples hs hmem => ?_⟩
  · refine ⟨runLoop tps v (tick tps v LoopState.initial q e).2 rest, ?_⟩
    unfold Application.MainLoop
    have hrun : LoopState.initial.running = true := rfl
    rw [runLoop_cons, if_pos hrun, if_neg (Nat.not_le.mpr hlt), ht]
  · have h := (runLoop_advanced_increasing tps v samples LoopState.initial hs
      (fun x _ => Nat.zero_le _)).2 0 hmem
    exact Nat.lt_irrefl _ h

set_option maxRecDepth 100000 in
theorem first_tick_target_zero_is_idle_witness :
    (0 < exampleVideo.frames.length ∧ target_frame 10 exampleVideo 0 = 0) ∧
      (tick 10 exampleVideo LoopState.initial false 0).1 = Signal.Idle ∧
      (∃ tail, Application.MainLoop 10 exampleVideo [(false, 0), (false, 12)]
        = Signal.Idle :: tail) ∧
      ∀ samples : List (Bool × Nat), (samples.map Prod.snd).Pairwise (· ≤ ·) →
        0 ∉ advanced (Application.MainLoop 10 exampleVideo samples) :=
  ⟨⟨by decide, by decide⟩,
    first_tick_target_zero_is_idle 10 exampleVideo false 0 [(false, 12)] (by decide) (by decide)⟩

set_option maxRecDepth 100000 in
/-- C5 (Finished), counterexample: at 100 frames per second, 29 frames and 0.29 s on the
nanosecond clock, `elapsed * fps` is 29 in exact arithmetic, at least the frame count, but the
`double` the code computes is `28.999999999999996`: the target index is 28, the tick is not
`Finished`, and frame 28 is rendered. -/
theorem rounded_product_below_frame_count :
    exactTarget (10 ^ 9) video100 290000000 = 29 ∧ video100.frames.length = 29 ∧
      target_frame (10 ^ 9) video100 290000000 = 28 ∧
      (tick (10 ^ 9) video100 LoopState.initial false 290000000).1 = Signal.Advance 28 ∧
      Application.MainLoop (10 ^ 9) video100 [(false, 290000000)] = [Signal.Advance 28] := by
  decide

/-- C5 (Finished), as the code has it.  The target index of a tick is `target_frame`, the
truncated binary64 product of the elapsed seconds and `fps`.  A tick signals `Finished` (the
`break`: no render, no pool update) exactly when that target index is at least the frame
count, whatever the quit signal; on samples without a quit signal, when the targets of the
samples `pre` are all below the frame count and the next sample has a target at or above it,
the loop runs one pass per sample of `pre`, none of them `Finished`, then signals `Finished`
and stops: no later sample produces anything; and every index rendered by the loop is below
the frame count. -/
theorem finished_condition (tps : Nat) (v : VideoData) :
    (∀ (s : LoopState) (q : Bool) (e : Nat),
      (tick tps v s q e).1 = Signal.Finished ↔ v.frames.length ≤ target_frame tps v e) ∧
    (∀ (pre post : List (Bool × Nat)) (e : Nat),
      (∀ x ∈ pre, x.1 = false ∧ target_frame tps v x.2 < v.frames.length) →
      v.frames.length ≤ target_frame tps v e →
      Application.MainLoop tps v (pre ++ (false, e) :: post)
          = Application.MainLoop tps v pre ++ [Signal.Finished] ∧
        (Application.MainLoop tps v pre).length = pre.length ∧
        Signal.Finished ∉ Application.MainLoop tps v pre) ∧
    (∀ (samples : List (Bool × Nat)) (n : Nat),
      Signal.Advance n ∈ Application.MainLoop tps v samples → n < v.frames.length) := by
  refine ⟨tick_finished_iff tps v, ?_, ?_⟩
  · intro pre post e hpre hfin
    unfold Application.MainLoop
    have key : ∀ (pre : List (Bool × Nat)) (s : LoopState), s.running = true →
        (∀ x ∈ pre, x.1 = false ∧ target_frame tps v x.2 < v.frames.length) →
        runLoop tps v s (pre ++ (false, e) :: post) = runLoop tps v s pre ++ [Signal.Finished] ∧
          (runLoop tps v s pre).length = pre.length ∧
          Signal.Finished ∉ runLoop tps v s pre := by
      intro pre
      induction pre with
      | nil =>
        intro s hr _
        refine ⟨?_, rfl, fun h => by cases h⟩
        rw [List.nil_append, runLoop_cons, if_pos hr, if_pos hfin]
        rfl
      | cons x pre ih =>
        intro s hr hx
        obtain ⟨q, e'⟩ := x
        have hq : q = false := (hx (q, e') (List.mem_cons_self _ _)).1
        have hlt : target_frame tps v e' < v.frames.length :=
          (hx (q, e') (List.mem_cons_self _ _)).2
        subst hq
        have hr' : (tick tps v s false e').2.running = true := by
          rw [tick_running]
          exact hr
        have hnf : (tick tps v s false e').1 ≠ Signal.Finished := fun h =>
          absurd ((tick_finished_iff tps v s false e').1 h) (Nat.not_le.mpr hlt)
        have h := ih (tick tps v s false e').2 hr'
          (fun y hy => hx y (List.mem_cons_of_mem _ hy))
        rw [List.cons_append, runLoop_cons, runLoop_cons, if_pos hr, if_pos hr,
          if_neg (Nat.not_le.mpr hlt), if_neg (Nat.not_le.mpr hlt), h.1]
        refine ⟨rfl, ?_, ?_⟩
        · rw [List.length_cons, List.length_cons, h.2.1]
        · intro hmem
          rcases List.mem_cons.mp hmem with h' | h'
          · exact hnf h'.symm
          · exact h.2.2 h'
    exact key pre LoopState.initial rfl hpre
  · intro samples n
    unfold Application.MainLoop
    generalize LoopState.initial = s
    induction samples generalizing s with
    | nil => intro h; cases h
    | cons x rest ih =>
      obtain ⟨q, e⟩ := x
      rw [runLoop_cons]
      by_cases hr : s.running = true
      · rw [if_pos hr]
        by_cases hf : v.frames.length ≤ target_frame tps v e
        · rw [if_pos hf]
          intro h
          rcases List.mem_cons.mp h with h' | h'
          · cases h'
          · cases h'
        · rw [if_neg hf]
          intro h
          rcases List.mem_cons.mp h with h' | h'
          · exact (tick_advance_lt tps v s q e n h'.symm).2.1
          · exact ih _ h'
      · rw [if_neg hr]
        intro h
        cases h

set_option maxRecDepth 100000 in
theorem finished_condition_witness :
    Application.MainLoop (10 ^ 9) video100
        ([(false, 0), (false, 280000000), (false, 290000000)] ++
          (false, 300000000) :: [(false, 5)])
        = Application.MainLoop (10 ^ 9) video100
            [(false, 0), (false, 280000000), (false, 290000000)] ++ [Signal.Finished] ∧
      Application.MainLoop (10 ^ 9) video100
          [(false, 0), (false, 280000000), (false, 290000000)]
        = [Signal.Idle, Signal.Advance 28, Signal.Idle] ∧
      target_frame (10 ^ 9) video100 300000000 = 30 :=
  ⟨((finished_condition (10 ^ 9) video100).2.1
      [(false, 0), (false, 280000000), (false, 290000000)] [(false, 5)] 300000000
      (by decide) (by decide)).1, by decide, by decide⟩

set_option maxRecDepth 100000 in
/-- C6 (quit), counterexample: a tick that observes the quit signal only clears `running`;
the rest of the pass still runs, so with target index 1 (a valid index different from
`current_frame`) that very tick renders frame 1 and updates the pool. -/
theorem quit_tick_still_renders :
    Application.MainLoop 10 exampleVideo [(true, 12)] = [Signal.Advance 1] := by
  decide

/-- C6 (quit), as the code has it: when a quit signal is observed at the top of a pass of the
loop, the loop completes that one pass (whose signal is that of an ordinary tick: it renders
exactly when the target index is a valid index different from `current_frame`) and leaves at
the next loop test: no later sample produces a signal, whatever the clock says. -/
theorem quit_ends_loop_after_current_pass (tps : Nat) (v : VideoData) (s : LoopState) (e : Nat)
    (rest : List (Bool × Nat)) :
    runLoop tps v s ((true, e) :: rest) =
        (if s.running then [(tick tps v s true e).1] else []) ∧
      ((tick tps v s true e).1 = (tick tps v s false e).1) ∧
      ((∃ n, (tick tps v s true e).1 = Signal.Advance n) ↔
        (target_frame tps v e < v.frames.length ∧ target_frame tps v e ≠ s.current_frame)) := by
  refine ⟨?_, ?_, ?_⟩
  · rw [runLoop_cons]
    by_cases hr : s.running = true
    · rw [if_pos hr, if_pos hr]
      by_cases hf : v.frames.length ≤ target_frame tps v e
      · rw [if_pos hf, tick_of_ge tps v s true e hf]
      · rw [if_neg hf]
        have hstop : (tick tps v s true e).2.running = false := by rw [tick_running]; rfl
        cases rest with
        | nil => rfl
        | cons y rest =>
          obtain ⟨q', e'⟩ := y
          rw [runLoop_cons, hstop]
          rfl
    · rw [if_neg hr, if_neg hr]
  · by_cases hf : v.frames.length ≤ target_frame tps v e
    · rw [tick_of_ge tps v s true e hf, tick_of_ge tps v s false e hf]
    · have hlt := Nat.lt_of_not_ge hf
      by_cases hc : target_frame tps v e = s.current_frame
      · rw [tick_of_eq tps v s true e hlt hc, tick_of_eq tps v s false e hlt hc]
      · rw [tick_of_ne tps v s true e hlt hc, tick_of_ne tps v s false e hlt hc]
  · constructor
    · rintro ⟨n, hn⟩
      have h := tick_advance_lt tps v s true e n hn
      exact ⟨h.1 ▸ h.2.1, h.1 ▸ h.2.2⟩
    · rintro ⟨hlt, hc⟩
      exact ⟨_, by rw [tick_of_ne tps v s true e hlt hc]⟩

/-! ## The window pool -/

theorem toInt32_le (n : Nat) : toInt32 n ≤ (n : Int) := by
  unfold toInt32
  split_ifs <;> omega

theorem toInt32_of_lt {n : Nat} (h : n < 2 ^ 31) : toInt32 n = (n : Int) := by
  unfold toInt32
  have h1 : n % 2 ^ 32 = n := Nat.mod_eq_of_lt (by omega)
  rw [h1, if_pos h]

theorem clean_not_stale (d : DeferredWindow) : d.clean.IsStale = false := rfl

theorem clean_of_not_stale (d : DeferredWindow) (h : d.IsStale = false) : d.clean = d := by
  cases d
  simp only [DeferredWindow.IsStale, Bool.or_eq_false_iff] at h
  obtain ⟨⟨h1, h2⟩, h3⟩ := h
  simp only [DeferredWindow.clean, h1, h2, h3]

theorem applyStale_fst (ws : List DeferredWindow) :
    (applyStale ws).1 = ws.map DeferredWindow.clean := by
  induction ws with
  | nil => rfl
  | cons w ws ih =>
    rw [applyStale, List.map_cons]
    by_cases h : w.IsStale = true
    · rw [if_pos h]
      exact congrArg (List.cons w.clean) ih
    · rw [if_neg h]
      rw [clean_of_not_stale w (Bool.not_eq_true _ ▸ h)]
      exact congrArg (List.cons w) ih

theorem applyStale_snd (ws : List DeferredWindow) :
    (applyStale ws).2 = (ws.filter DeferredWindow.IsStale).map (fun w => (w.Apply).2) := by
  induction ws with
  | nil => rfl
  | cons w ws ih =>
    rw [applyStale]
    by_cases h : w.IsStale = true
    · rw [if_pos h, List.filter_cons_of_pos h, List.map_cons]
      exact congrArg (List.cons _) ih
    · rw [if_neg h, List.filter_cons_of_neg h]
      exact ih

theorem updateAll_length (ox oy : Int) (sc : Scale) (frame : FrameData) (ac : Int) :
    ∀ (ws : List DeferredWindow) (i : Nat), (updateAll ox oy sc frame ac i ws).length = ws.length := by
  intro ws
  induction ws with
  | nil => intro i; rfl
  | cons w ws ih =>
    intro i
    rw [updateAll, List.length_cons, List.length_cons, ih]

theorem updateAll_getElem_opt (ox oy : Int) (sc : Scale) (frame : FrameData) (ac : Int) :
    ∀ (ws : List DeferredWindow) (i j : Nat),
      (updateAll ox oy sc frame ac i ws)[j]? =
        (ws[j]?).map (slotUpdate ox oy sc frame ac (i + j)) := by
  intro ws
  induction ws with
  | nil => intro i j; rfl
  | cons w ws ih =>
    intro i j
    rw [updateAll]
    cases j with
    | zero => simp
    | succ j =>
      rw [List.getElem?_cons_succ, List.getElem?_cons_succ, ih]
      have : i + 1 + j = i + (j + 1) := by omega
      rw [this]

/-- The first loop, run over exactly the windows from slot `i` on, succeeds and is the map
`updateAll`, the count rising by the number of stale windows. -/
theorem updateSlots_eq (ox oy : Int) (sc : Scale) (frame : FrameData) (ac : Int)
    (hac : ∀ j : Nat, (j : Int) < ac → j < frame.big_rects.length) :
    ∀ (k i : Nat) (pre mid : List DeferredWindow) (n : Int),
      pre.length = i → mid.length = k →
      updateSlots ox oy sc frame ac k i (pre ++ mid) n =
        some (pre ++ updateAll ox oy sc frame ac i mid,
          n + ((updateAll ox oy sc frame ac i mid).countP DeferredWindow.IsStale : Nat)) := by
  intro k
  induction k with
  | zero =>
    intro i pre mid n _ hmid
    have : mid = [] := List.length_eq_zero.mp hmid
    subst this
    simp [updateSlots, updateAll]
  | succ k ih =>
    intro i pre mid n hpre hmid
    cases mid with
    | nil => simp at hmid
    | cons w mid =>
      have hget : (pre ++ w :: mid)[i]? = some w := by
        rw [List.getElem?_append_right (by omega), hpre, Nat.sub_self]
        simp
      have hset : ∀ w', (pre ++ w :: mid).set i w' = (pre ++ [w']) ++ mid := by
        intro w'
        rw [← hpre, List.set_append_right _ _ (le_refl _), Nat.sub_self, List.set_cons_zero,
          List.append_assoc]
        rfl
      have hstep : ∀ w', updateSlots ox oy sc frame ac k (i + 1) ((pre ++ w :: mid).set i w')
            (if w'.IsStale then n + 1 else n) =
          some (pre ++ w' :: updateAll ox oy sc frame ac (i + 1) mid,
            n + ((w' :: updateAll ox oy sc frame ac (i + 1) mid).countP
              DeferredWindow.IsStale : Nat)) := by
        intro w'
        rw [hset, ih (i + 1) (pre ++ [w']) mid _ (by simp [hpre]) (by simpa using hmid)]
        rw [List.append_assoc, List.countP_cons]
        by_cases hst : w'.IsStale = true
        · simp only [hst, if_true, List.singleton_append, Nat.cast_add, Nat.cast_one]
          congr 2
          omega
        · simp only [hst, if_false, List.singleton_append, Nat.add_zero, Bool.false_eq_true]
      rw [updateSlots, hget]
      dsimp only
      rw [updateAll]
      unfold slotUpdate
      by_cases hlt : (i : Int) < ac
      · rw [if_pos hlt, if_pos hlt]
        have hin := hac i hlt
        rw [List.getElem?_eq_getElem hin]
        exact hstep _
      · rw [if_neg hlt, if_neg hlt]
        exact hstep _

theorem Update_visible (d : DeferredWindow) (x y w h : Int) (v : Bool) :
    (d.Update x y w h v).visible = v := by
  unfold DeferredWindow.Update
  cases v <;> cases hv : d.visible <;> dsimp only <;> simp [hv] <;> split_ifs <;> simp [hv]

theorem Update_geometry (d : DeferredWindow) (x y w h : Int) :
    (d.Update x y w h true).x = x ∧ (d.Update x y w h true).y = y ∧
      (d.Update x y w h true).w = max 1 w ∧ (d.Update x y w h true).h = max 1 h := by
  unfold DeferredWindow.Update
  cases hv : d.visible <;> dsimp only <;> simp [hv] <;> split_ifs <;> simp_all

theorem Update_clean_idem (d : DeferredWindow) (x y w h : Int) (v : Bool) :
    (d.Update x y w h v).clean.Update x y w h v = (d.Update x y w h v).clean := by
  have hvis := Update_visible d x y w h v
  cases v with
  | false =>
    unfold DeferredWindow.Update at hvis ⊢
    cases hv : d.visible <;> simp [hv, DeferredWindow.clean]
  | true =>
    obtain ⟨hx, hy, hw, hh⟩ := Update_geometry d x y w h
    generalize d.Update x y w h true = d' at hvis hx hy hw hh
    unfold DeferredWindow.Update
    simp [DeferredWindow.clean, hvis, hx, hy, hw, hh]

theorem Update_eq_self_of_not_stale (d : DeferredWindow) (x y w h : Int) (v : Bool)
    (hs : (d.Update x y w h v).IsStale = false) : d.Update x y w h v = d := by
  unfold DeferredWindow.Update at hs ⊢
  cases v <;> cases hv : d.visible <;> dsimp only at hs ⊢ <;>
    simp only [hv, DeferredWindow.IsStale] at hs ⊢ <;> split_ifs at hs ⊢ <;> simp_all

theorem slotUpdate_clean_idem (ox oy : Int) (sc : Scale) (frame : FrameData) (ac : Int) (i : Nat)
    (d : DeferredWindow) (hac : ∀ j : Nat, (j : Int) < ac → j < frame.big_rects.length) :
    slotUpdate ox oy sc frame ac i (slotUpdate ox oy sc frame ac i d).clean =
      (slotUpdate ox oy sc frame ac i d).clean := by
  unfold slotUpdate
  by_cases hlt : (i : Int) < ac
  · simp only [if_pos hlt, List.getElem?_eq_getElem (hac i hlt)]
    exact Update_clean_idem _ _ _ _ _ _
  · simp only [if_neg hlt]
    exact Update_clean_idem _ _ _ _ _ _

theorem updateAll_clean_idem (ox oy : Int) (sc : Scale) (frame : FrameData) (ac : Int)
    (hac : ∀ j : Nat, (j : Int) < ac → j < frame.big_rects.length) :
    ∀ (ws : List DeferredWindow) (i : Nat),
      updateAll ox oy sc frame ac i ((updateAll ox oy sc frame ac i ws).map DeferredWindow.clean) =
        (updateAll ox oy sc frame ac i ws).map DeferredWindow.clean := by
  intro ws
  induction ws with
  | nil => intro i; rfl
  | cons w ws ih =>
    intro i
    rw [updateAll, List.map_cons, updateAll, slotUpdate_clean_idem ox oy sc frame ac i w hac, ih]

theorem countP_map_clean (ws : List DeferredWindow) :
    (ws.map DeferredWindow.clean).countP DeferredWindow.IsStale = 0 := by
  induction ws with
  | nil => rfl
  | cons w ws ih =>
    rw [List.map_cons, List.countP_cons_of_neg]
    · exact ih
    · simp [clean_not_stale]

theorem map_clean_of_countP_zero (ws : List DeferredWindow)
    (h : ws.countP DeferredWindow.IsStale = 0) : ws.map DeferredWindow.clean = ws := by
  induction ws with
  | nil => rfl
  | cons w ws ih =>
    rw [List.countP_cons] at h
    have hw : w.IsStale = false := by
      cases hst : w.IsStale
      · rfl
      · rw [hst] at h
        simp at h
    have h0 : ws.countP DeferredWindow.IsStale = 0 := by omega
    rw [List.map_cons, clean_of_not_stale w hw, ih h0]

theorem activeCount_in_range (frame : FrameData) (j : Nat)
    (h : (j : Int) < activeCount frame) : j < frame.big_rects.length := by
  unfold activeCount at h
  have h1 := toInt32_le frame.big_rects.length
  have h2 : (j : Int) < toInt32 frame.big_rects.length := lt_of_lt_of_le h (min_le_left _ _)
  omega

/-- `WindowPool::Update` on a pool of 150 windows, in closed form: it never indexes out of
range; the windows after the first loop are `slotsAfter`, the count is the number of stale
windows among them, and the transaction (if any) has one entry per stale window, in order. -/
theorem Update_eq (p : WindowPool) (frame : FrameData) (b : Bool)
    (hp : p.windows.length = Constants.MAX_PHYSICAL_WINDOWS) :
    p.Update frame b =
      some (if 0 < (slotsAfter p frame).countP DeferredWindow.IsStale then
          if b then
            { pool := { p with windows := (slotsAfter p frame).map DeferredWindow.clean },
              staleCount := ((slotsAfter p frame).countP DeferredWindow.IsStale : Nat),
              calls := HostCall.BeginDeferWindowPos
                  ((slotsAfter p frame).countP DeferredWindow.IsStale : Nat) ::
                ((slotsAfter p frame).filter DeferredWindow.IsStale).map (fun w => (w.Apply).2) ++
                [HostCall.EndDeferWindowPos] }
          else
            { pool := { p with windows := slotsAfter p frame },
              staleCount := ((slotsAfter p frame).countP DeferredWindow.IsStale : Nat),
              calls := [HostCall.BeginDeferWindowPos
                ((slotsAfter p frame).countP DeferredWindow.IsStale : Nat)] }
        else
          { pool := { p with windows := slotsAfter p frame }, staleCount := 0, calls := [] }) := by
  have h := updateSlots_eq p.originX p.originY p.scale frame (activeCount frame)
    (activeCount_in_range frame) Constants.MAX_PHYSICAL_WINDOWS 0 [] p.windows 0 rfl hp
  rw [List.nil_append, List.nil_append, zero_add] at h
  unfold WindowPool.Update
  dsimp only
  have hac : min (toInt32 frame.big_rects.length) (Constants.MAX_PHYSICAL_WINDOWS : Int)
      = activeCount frame := rfl
  rw [hac, h]
  dsimp only
  change _ = some (if 0 < (slotsAfter p frame).countP DeferredWindow.IsStale then _ else _)
  unfold slotsAfter
  by_cases hpos : 0 < (updateAll p.originX p.originY p.scale frame (activeCount frame) 0
      p.windows).countP DeferredWindow.IsStale
  · have hpos' : ((List.countP DeferredWindow.IsStale (updateAll p.originX p.originY p.scale
        frame (activeCount frame) 0 p.windows) : Nat) : Int) > 0 := by exact_mod_cast hpos
    rw [if_pos hpos', if_pos hpos, applyStale_fst, applyStale_snd]
    cases b <;> rfl
  · have hpos' : ¬ ((List.countP DeferredWindow.IsStale (updateAll p.originX p.originY p.scale
        frame (activeCount frame) 0 p.windows) : Nat) : Int) > 0 := by
      intro h'
      exact hpos (by exact_mod_cast h')
    rw [if_neg hpos', if_neg hpos]
    have : List.countP DeferredWindow.IsStale (updateAll p.originX p.originY p.scale
        frame (activeCount frame) 0 p.windows) = 0 := by omega
    rw [this]
    rfl

theorem Initialize_length (createWindow : Nat → Nat) (pt : Int × Int) (drawScale : Scale) :
    (WindowPool.default.Initialize createWindow pt drawScale).windows.length
      = Constants.MAX_PHYSICAL_WINDOWS := by
  simp [WindowPool.Initialize, WindowPool.default]

theorem slotsAfter_length (p : WindowPool) (frame : FrameData) :
    (slotsAfter p frame).length = p.windows.length :=
  updateAll_length _ _ _ _ _ _ _

/-- After an `Update` whose transaction opens, the windows are those of the first loop with
all dirty flags cleared. -/
theorem Update_true_pool (p : WindowPool) (frame : FrameData)
    (hp : p.windows.length = Constants.MAX_PHYSICAL_WINDOWS) :
    ∃ r, p.Update frame true = some r ∧
      r.pool = { p with windows := (slotsAfter p frame).map DeferredWindow.clean } := by
  rw [Update_eq p frame true hp]
  refine ⟨_, rfl, ?_⟩
  by_cases hpos : 0 < (slotsAfter p frame).countP DeferredWindow.IsStale
  · rw [if_pos hpos, if_pos rfl]
  · rw [if_neg hpos]
    have h0 : (slotsAfter p frame).countP DeferredWindow.IsStale = 0 := by omega
    rw [map_clean_of_countP_zero _ h0]

/-- C7 (dirty minimality).  For every pool of 150 windows (any stored geometry, visibility and
flags; any scale and origin) and every frame: when `Update(frame)` is applied with
`BeginDeferWindowPos` succeeding, an immediately following `Update(frame)` counts zero stale
windows, makes no host call at all, and leaves the pool exactly as it was. -/
theorem update_same_frame_twice (p : WindowPool) (frame : FrameData)
    (hp : p.windows.length = Constants.MAX_PHYSICAL_WINDOWS) :
    ∃ r, p.Update frame true = some r ∧
      ∀ b, r.pool.Update frame b = some { pool := r.pool, staleCount := 0, calls := [] } := by
  obtain ⟨r, hr, hpool⟩ := Update_true_pool p frame hp
  refine ⟨r, hr, fun b => ?_⟩
  have hlen : r.pool.windows.length = Constants.MAX_PHYSICAL_WINDOWS := by
    rw [hpool]
    simp only [List.length_map, slotsAfter_length, hp]
  have hslots : slotsAfter r.pool frame = r.pool.windows := by
    rw [hpool]
    exact updateAll_clean_idem _ _ _ _ _ (activeCount_in_range frame) _ _
  have hcount : (slotsAfter r.pool frame).countP DeferredWindow.IsStale = 0 := by
    rw [hslots, hpool]
    exact countP_map_clean _
  rw [Update_eq r.pool frame b hlen, hcount, if_neg (Nat.lt_irrefl 0), hslots]

theorem update_same_frame_twice_witness :
    freshPool.windows.length = Constants.MAX_PHYSICAL_WINDOWS ∧
      ∃ r, freshPool.Update frame0 true = some r ∧
        ∀ b, r.pool.Update frame0 b = some { pool := r.pool, staleCount := 0, calls := [] } :=
  ⟨Initialize_length _ _ _, update_same_frame_twice freshPool frame0 (Initialize_length _ _ _)⟩

theorem slotsAfter_getElem_opt (p : WindowPool) (frame : FrameData) (i : Nat) :
    (slotsAfter p frame)[i]? =
      (p.windows[i]?).map (slotUpdate p.originX p.originY p.scale frame (activeCount frame) i) := by
  unfold slotsAfter
  rw [updateAll_getElem_opt, Nat.zero_add]

/-- The shape of the result of `Update` on a pool of 150 windows. -/
theorem Update_result (p : WindowPool) (frame : FrameData) (b : Bool)
    (hp : p.windows.length = Constants.MAX_PHYSICAL_WINDOWS) :
    ∃ r, p.Update frame b = some r ∧
      r.staleCount = ((slotsAfter p frame).countP DeferredWindow.IsStale : Nat) ∧
      ((r.pool = { p with windows := slotsAfter p frame } ∧
          (r.calls = [] ∨ r.calls = [HostCall.BeginDeferWindowPos r.staleCount])) ∨
        (r.pool = { p with windows := (slotsAfter p frame).map DeferredWindow.clean } ∧
          b = true ∧ 0 < (slotsAfter p frame).countP DeferredWindow.IsStale ∧
          r.calls = HostCall.BeginDeferWindowPos r.staleCount ::
            ((slotsAfter p frame).filter DeferredWindow.IsStale).map (fun w => (w.Apply).2) ++
            [HostCall.EndDeferWindowPos])) := by
  rw [Update_eq p frame b hp]
  refine ⟨_, rfl, ?_⟩
  by_cases hpos : 0 < (slotsAfter p frame).countP DeferredWindow.IsStale
  · rw [if_pos hpos]
    cases b with
    | true => exact ⟨rfl, Or.inr ⟨rfl, rfl, hpos, rfl⟩⟩
    | false => exact ⟨rfl, Or.inl ⟨rfl, Or.inr rfl⟩⟩
  · rw [if_neg hpos]
    have h0 : (slotsAfter p frame).countP DeferredWindow.IsStale = 0 := by omega
    refine ⟨?_, Or.inl ⟨rfl, Or.inl rfl⟩⟩
    rw [h0]
    rfl

/-- Every window of the resulting pool is the old window of its slot after the slot's
`Update` call, with its flags as they are or cleared. -/
theorem Update_window (p : WindowPool) (frame : FrameData) (b : Bool) (r : UpdateResult)
    (hp : p.windows.length = Constants.MAX_PHYSICAL_WINDOWS) (hr : p.Update frame b = some r)
    (i : Nat) (win : DeferredWindow) (hw : r.pool.windows[i]? = some win) :
    ∃ old, p.windows[i]? = some old ∧
      (win = slotUpdate p.originX p.originY p.scale frame (activeCount frame) i old ∨
        win = (slotUpdate p.originX p.originY p.scale frame (activeCount frame) i old).clean) := by
  obtain ⟨r', hr', _, hcase⟩ := Update_result p frame b hp
  rw [hr] at hr'
  injection hr' with hr'
  subst hr'
  rcases hcase with ⟨hpool, _⟩ | ⟨hpool, _⟩
  · rw [hpool] at hw
    simp only [slotsAfter_getElem_opt, Option.map_eq_some'] at hw
    obtain ⟨old, hold, hwin⟩ := hw
    exact ⟨old, hold, Or.inl hwin.symm⟩
  · rw [hpool] at hw
    simp only [List.getElem?_map, slotsAfter_getElem_opt, Option.map_eq_some'] at hw
    obtain ⟨w1, ⟨old, hold, hw1⟩, hwin⟩ := hw
    exact ⟨old, hold, Or.inr (by rw [← hwin, ← hw1])⟩

theorem slotUpdate_visible (ox oy : Int) (sc : Scale) (frame : FrameData) (i : Nat)
    (d : DeferredWindow) :
    (slotUpdate ox oy sc frame (activeCount frame) i d).visible
      = decide ((i : Int) < activeCount frame) := by
  unfold slotUpdate
  by_cases hlt : (i : Int) < activeCount frame
  · rw [if_pos hlt, List.getElem?_eq_getElem (activeCount_in_range frame i hlt)]
    simp only [updateActive, Update_visible, hlt, decide_True]
  · rw [if_neg hlt]
    simp only [Update_visible, hlt, decide_False]

theorem activeCount_of_lt (frame : FrameData) (h : frame.big_rects.length < 2 ^ 31) :
    activeCount frame
      = ((min frame.big_rects.length Constants.MAX_PHYSICAL_WINDOWS : Nat) : Int) := by
  unfold activeCount
  rw [toInt32_of_lt h]
  simp

theorem updateAll_congr (ox oy : Int) (sc : Scale) (f1 f2 : FrameData) (a1 a2 : Int)
    (h : ∀ i d, slotUpdate ox oy sc f1 a1 i d = slotUpdate ox oy sc f2 a2 i d) :
    ∀ (ws : List DeferredWindow) (i : Nat),
      updateAll ox oy sc f1 a1 i ws = updateAll ox oy sc f2 a2 i ws := by
  intro ws
  induction ws with
  | nil => intro i; rfl
  | cons w ws ih =>
    intro i
    rw [updateAll, updateAll, h, ih]

theorem slotsAfter_take (p : WindowPool) (frame : FrameData)
    (h : frame.big_rects.length < 2 ^ 31) :
    slotsAfter p { big_rects := frame.big_rects.take Constants.MAX_PHYSICAL_WINDOWS,
                   runs := frame.runs } = slotsAfter p frame := by
  have hlen : (frame.big_rects.take Constants.MAX_PHYSICAL_WINDOWS).length < 2 ^ 31 := by
    rw [List.length_take]
    omega
  have hac : activeCount { big_rects := frame.big_rects.take Constants.MAX_PHYSICAL_WINDOWS,
                           runs := frame.runs } = activeCount frame := by
    rw [activeCount_of_lt _ hlen, activeCount_of_lt _ h]
    simp only [List.length_take]
    congr 1
    omega
  unfold slotsAfter
  rw [hac]
  apply updateAll_congr
  intro i d
  unfold slotUpdate
  by_cases hlt : (i : Int) < activeCount frame
  · rw [if_pos hlt, if_pos hlt]
    have hi : i < Constants.MAX_PHYSICAL_WINDOWS := by
      rw [activeCount_of_lt _ h] at hlt
      have := Int.ofNat_lt.mp hlt
      omega
    simp only [List.getElem?_take_of_lt hi]
  · rw [if_neg hlt, if_neg hlt]

set_option maxRecDepth 100000 in
theorem freshPool_update_frame0 :
    (freshPool.Update frame0 true).map (fun r => r.pool) = some poolAfterFrame0 := by
  decide

theorem poolAfterFrame0_length :
    poolAfterFrame0.windows.length = Constants.MAX_PHYSICAL_WINDOWS := by
  simp [poolAfterFrame0, Constants.MAX_PHYSICAL_WINDOWS]

/-- C8 (pool capacity).  With `C = MAX_PHYSICAL_WINDOWS = 150`, for every pool of `C` windows,
every frame and either answer of `BeginDeferWindowPos`: `Update` returns without indexing out
of range and keeps `C` windows; it makes no host call, or one `BeginDeferWindowPos` alone
(refused), or one `BeginDeferWindowPos(staleCount)`, `staleCount ≤ C` `DeferWindowPos`
entries and `EndDeferWindowPos`; and for a frame whose rectangle count `n` fits `int`
(`n < 2^31`), slot `i` is visible afterwards exactly when `i < min(n, C)`, and the result (pool,
count and host calls) is the same as for the frame cut to its first `C` rectangles. -/
theorem update_capacity (p : WindowPool) (frame : FrameData) (b : Bool)
    (hp : p.windows.length = Constants.MAX_PHYSICAL_WINDOWS) :
    ∃ r, p.Update frame b = some r ∧
      r.pool.windows.length = Constants.MAX_PHYSICAL_WINDOWS ∧
      0 ≤ r.staleCount ∧ r.staleCount ≤ (Constants.MAX_PHYSICAL_WINDOWS : Int) ∧
      (r.calls = [] ∨ r.calls = [HostCall.BeginDeferWindowPos r.staleCount] ∨
        ∃ entries, r.calls = HostCall.BeginDeferWindowPos r.staleCount :: entries ++
            [HostCall.EndDeferWindowPos] ∧
          (entries.length : Int) = r.staleCount ∧ ∀ c ∈ entries, c.isDefer = true) ∧
      (frame.big_rects.length < 2 ^ 31 →
        (∀ i win, r.pool.windows[i]? = some win →
          (win.visible = true ↔
            i < min frame.big_rects.length Constants.MAX_PHYSICAL_WINDOWS)) ∧
        p.Update { big_rects := frame.big_rects.take Constants.MAX_PHYSICAL_WINDOWS,
                   runs := frame.runs } b = some r) := by
  obtain ⟨r, hr, hcount, hcase⟩ := Update_result p frame b hp
  refine ⟨r, hr, ?_, ?_, ?_, ?_, ?_⟩
  · rcases hcase with ⟨hpool, _⟩ | ⟨hpool, _⟩
    · rw [hpool]
      exact (slotsAfter_length p frame).trans hp
    · rw [hpool]
      simp only [List.length_map]
      exact (slotsAfter_length p frame).trans hp
  · rw [hcount]
    exact Int.natCast_nonneg _
  · rw [hcount]
    have h1 : (slotsAfter p frame).countP DeferredWindow.IsStale ≤ (slotsAfter p frame).length :=
      List.countP_le_length _
    rw [slotsAfter_length, hp] at h1
    exact_mod_cast h1
  · rcases hcase with ⟨_, hcalls⟩ | ⟨_, _, _, hcalls⟩
    · rcases hcalls with h | h
      · exact Or.inl h
      · exact Or.inr (Or.inl h)
    · refine Or.inr (Or.inr ⟨_, hcalls, ?_, ?_⟩)
      · rw [hcount, List.length_map, List.countP_eq_length_filter]
      · intro c hc
        obtain ⟨w, _, hw⟩ := List.mem_map.mp hc
        rw [← hw]
        rfl
  · intro hn
    constructor
    · intro i win hw
      obtain ⟨old, _, hwin⟩ := Update_window p frame b r hp hr i win hw
      have hvis : win.visible = decide ((i : Int) < activeCount frame) := by
        rcases hwin with h | h
        · rw [h, slotUpdate_visible]
        · rw [h]
          exact slotUpdate_visible _ _ _ _ _ _
      rw [hvis, activeCount_of_lt frame hn, decide_eq_true_iff]
      exact Int.ofNat_lt
    · rw [← hr, Update_eq p frame b hp, Update_eq p _ b hp, slotsAfter_take p frame hn]

set_option maxRecDepth 100000 in
theorem update_capacity_witness :
    (poolAfterFrame0.windows.length = Constants.MAX_PHYSICAL_WINDOWS ∧
      wideFrame.big_rects.length = 151 ∧ wideFrame.big_rects.length < 2 ^ 31) ∧
    (poolAfterFrame0.Update wideFrame true).map
        (fun r => (r.staleCount, r.calls.length, r.pool.windows.all (fun w => w.visible),
          r.pool.windows.getLast?)) =
      some (150, 152, true,
        some { hwnd := 149, x := 323, y := 497, w := 4, h := 6, visible := true,
               pos_stale := false, sz_stale := false, visible_stale := false }) ∧
    ∃ r, poolAfterFrame0.Update wideFrame true = some r ∧
      r.pool.windows.length = Constants.MAX_PHYSICAL_WINDOWS ∧
      0 ≤ r.staleCount ∧ r.staleCount ≤ (Constants.MAX_PHYSICAL_WINDOWS : Int) ∧
      (r.calls = [] ∨ r.calls = [HostCall.BeginDeferWindowPos r.staleCount] ∨
        ∃ entries, r.calls = HostCall.BeginDeferWindowPos r.staleCount :: entries ++
            [HostCall.EndDeferWindowPos] ∧
          (entries.length : Int) = r.staleCount ∧ ∀ c ∈ entries, c.isDefer = true) ∧
      (∀ i win, r.pool.windows[i]? = some win →
        (win.visible = true ↔
          i < min wideFrame.big_rects.length Constants.MAX_PHYSICAL_WINDOWS)) ∧
      poolAfterFrame0.Update
        { big_rects := wideFrame.big_rects.take Constants.MAX_PHYSICAL_WINDOWS,
          runs := wideFrame.runs } true = some r :=
  ⟨⟨poolAfterFrame0_length, by decide, by decide⟩, by decide,
    let ⟨r, h1, h2, h3, h4, h5, h6⟩ :=
      update_capacity poolAfterFrame0 wideFrame true poolAfterFrame0_length
    ⟨r, h1, h2, h3, h4, h5, (h6 (by decide)).1, (h6 (by decide)).2⟩⟩

/-- A window that is stale after the first loop gets its entry in the transaction (when the
transaction opens) and is stored with its flags cleared. -/
theorem Update_entry (p : WindowPool) (frame : FrameData)
    (hp : p.windows.length = Constants.MAX_PHYSICAL_WINDOWS) (i : Nat) (win1 : DeferredWindow)
    (h1 : (slotsAfter p frame)[i]? = some win1) (hst : win1.IsStale = true) :
    ∃ res entries, p.Update frame true = some res ∧
      res.calls = HostCall.BeginDeferWindowPos res.staleCount :: entries ++
        [HostCall.EndDeferWindowPos] ∧
      (win1.Apply).2 ∈ entries ∧ res.pool.windows[i]? = some win1.clean := by
  have hmem : win1 ∈ slotsAfter p frame := List.mem_iff_getElem?.mpr ⟨i, h1⟩
  have hpos : 0 < (slotsAfter p frame).countP DeferredWindow.IsStale :=
    List.countP_pos_iff.mpr ⟨win1, hmem, hst⟩
  rw [Update_eq p frame true hp, if_pos hpos, if_pos rfl]
  refine ⟨_, _, rfl, rfl, ?_, ?_⟩
  · exact List.mem_map.mpr ⟨win1, List.mem_filter.mpr ⟨hmem, hst⟩, rfl⟩
  · show ((slotsAfter p frame).map DeferredWindow.clean)[i]? = _
    rw [List.getElem?_map, h1]
    rfl

/-- A window that is stale after the first loop, when `BeginDeferWindowPos` returns null:
the only host call is that `BeginDeferWindowPos`, and the window is stored as the first loop
left it. -/
theorem Update_refused (p : WindowPool) (frame : FrameData)
    (hp : p.windows.length = Constants.MAX_PHYSICAL_WINDOWS) (i : Nat) (win1 : DeferredWindow)
    (h1 : (slotsAfter p frame)[i]? = some win1) (hst : win1.IsStale = true) :
    ∃ res, p.Update frame false = some res ∧
      res.calls = [HostCall.BeginDeferWindowPos res.staleCount] ∧
      res.pool.windows[i]? = some win1 := by
  have hmem : win1 ∈ slotsAfter p frame := List.mem_iff_getElem?.mpr ⟨i, h1⟩
  have hpos : 0 < (slotsAfter p frame).countP DeferredWindow.IsStale :=
    List.countP_pos_iff.mpr ⟨win1, hmem, hst⟩
  rw [Update_eq p frame false hp, if_pos hpos]
  exact ⟨_, rfl, rfl, h1⟩

theorem slotsAfter_active (p : WindowPool) (frame : FrameData) (i : Nat) (r : RectData)
    (win : DeferredWindow) (hn : frame.big_rects.length < 2 ^ 31)
    (hi : i < Constants.MAX_PHYSICAL_WINDOWS) (hr : frame.big_rects[i]? = some r)
    (hw : p.windows[i]? = some win) :
    (slotsAfter p frame)[i]? = some (updateActive p.originX p.originY p.scale win r) := by
  have hin : i < frame.big_rects.length := (List.getElem?_eq_some.mp hr).1
  have hlt : (i : Int) < activeCount frame := by
    rw [activeCount_of_lt frame hn]
    exact Int.ofNat_lt.mpr (lt_min hin hi)
  rw [slotsAfter_getElem_opt, hw, Option.map_some']
  unfold slotUpdate
  rw [if_pos hlt, hr]

theorem Update_position_only (d : DeferredWindow) (x y w h : Int) (hvis : d.visible = true)
    (hsz : max 1 w = d.w ∧ max 1 h = d.h) (hpos : x ≠ d.x ∨ y ≠ d.y) :
    d.Update x y w h true = { d with x := x, y := y, pos_stale := true } := by
  unfold DeferredWindow.Update
  have h1 : ¬ (d.w ≠ max 1 w ∨ d.h ≠ max 1 h) := by
    rw [hsz.1, hsz.2]
    simp
  have h2 : d.x ≠ x ∨ d.y ≠ y := by
    rcases hpos with h | h
    · exact Or.inl (fun e => h e.symm)
    · exact Or.inr (fun e => h e.symm)
  have hv : ¬ d.visible ≠ true := not_not.mpr hvis
  rw [if_neg hv]
  simp only [Bool.not_true, Bool.false_eq_true, if_false]
  rw [if_neg h1, if_pos h2]

theorem Update_size_only (d : DeferredWindow) (x y w h : Int) (hvis : d.visible = true)
    (hpos : x = d.x ∧ y = d.y) (hsz : max 1 w ≠ d.w ∨ max 1 h ≠ d.h) :
    d.Update x y w h true = { d with w := max 1 w, h := max 1 h, sz_stale := true } := by
  unfold DeferredWindow.Update
  have h1 : d.w ≠ max 1 w ∨ d.h ≠ max 1 h := by
    rcases hsz with h' | h'
    · exact Or.inl (fun e => h' e.symm)
    · exact Or.inr (fun e => h' e.symm)
  have hv : ¬ d.visible ≠ true := not_not.mpr hvis
  rw [if_neg hv]
  simp only [Bool.not_true, Bool.false_eq_true, if_false]
  rw [if_pos h1]
  dsimp only
  rw [if_neg (by rw [hpos.1, hpos.2]; simp)]

theorem applyFlags_position_only (d : DeferredWindow) (h1 : d.pos_stale = true)
    (h2 : d.sz_stale = false) (h3 : d.visible_stale = false) :
    d.applyFlags =
      SWP_NOACTIVATE ||| SWP_NOCOPYBITS ||| SWP_NOZORDER ||| SWP_NOSIZE ||| SWP_NOREDRAW := by
  unfold DeferredWindow.applyFlags
  rw [h1, h2, h3]
  rfl

theorem applyFlags_size_only (d : DeferredWindow) (h1 : d.pos_stale = false)
    (h2 : d.sz_stale = true) (h3 : d.visible_stale = false) :
    d.applyFlags = SWP_NOACTIVATE ||| SWP_NOCOPYBITS ||| SWP_NOZORDER ||| SWP_NOMOVE := by
  unfold DeferredWindow.applyFlags
  rw [h1, h2, h3]
  rfl

theorem flags_false_of_not_stale (d : DeferredWindow) (h : d.IsStale = false) :
    d.pos_stale = false ∧ d.sz_stale = false ∧ d.visible_stale = false := by
  simp only [DeferredWindow.IsStale, Bool.or_eq_false_iff] at h
  exact ⟨h.1.1, h.1.2, h.2⟩

/-- C9 (per-attribute narrowing).  Pool of 150 windows, frame whose rectangle count fits `int`,
slot `i` visible with no dirty flag, rectangle `r` at list position `i`.  If the target size of
`r` equals the stored size and the target position differs, `Update` opens exactly one
transaction (one `BeginDeferWindowPos`), the slot is stored with the new position and its
width and height unchanged, and, the host granting the transaction, the calls are
`BeginDeferWindowPos`, the entries, `EndDeferWindowPos`, where the slot's entry carries the new
position with `SWP_NOSIZE` set and `SWP_NOMOVE` not set (a refused `BeginDeferWindowPos` is
the only call made).  Symmetrically, if the position is the same and the size differs, the
slot's entry has `SWP_NOMOVE` set and `SWP_NOSIZE` not set, and the stored position is
unchanged. -/
theorem update_narrows_entry (p : WindowPool) (frame : FrameData) (i : Nat) (r : RectData)
    (win : DeferredWindow) (hp : p.windows.length = Constants.MAX_PHYSICAL_WINDOWS)
    (hn : frame.big_rects.length < 2 ^ 31) (hi : i < Constants.MAX_PHYSICAL_WINDOWS)
    (hr : frame.big_rects[i]? = some r) (hw : p.windows[i]? = some win)
    (hvis : win.visible = true) (hclean : win.IsStale = false) (b : Bool) :
    ((max 1 (scaleTrunc r.w p.scale) = win.w ∧ max 1 (scaleTrunc r.h p.scale) = win.h) →
      (p.originX + scaleTrunc r.x p.scale ≠ win.x ∨ p.originY + scaleTrunc r.y p.scale ≠ win.y) →
      ∃ res win', p.Update frame b = some res ∧ res.pool.windows[i]? = some win' ∧
        win'.x = p.originX + scaleTrunc r.x p.scale ∧
        win'.y = p.originY + scaleTrunc r.y p.scale ∧ win'.w = win.w ∧ win'.h = win.h ∧
        (b = false → res.calls = [HostCall.BeginDeferWindowPos res.staleCount]) ∧
        (b = true → ∃ entries flags,
          res.calls = HostCall.BeginDeferWindowPos res.staleCount :: entries ++
            [HostCall.EndDeferWindowPos] ∧
          HostCall.DeferWindowPos win.hwnd (p.originX + scaleTrunc r.x p.scale)
            (p.originY + scaleTrunc r.y p.scale) win.w win.h flags ∈ entries ∧
          hasFlag flags SWP_NOSIZE = true ∧ hasFlag flags SWP_NOMOVE = false ∧
          win' = { win with x := p.originX + scaleTrunc r.x p.scale,
                            y := p.originY + scaleTrunc r.y p.scale })) ∧
    ((p.originX + scaleTrunc r.x p.scale = win.x ∧ p.originY + scaleTrunc r.y p.scale = win.y) →
      (max 1 (scaleTrunc r.w p.scale) ≠ win.w ∨ max 1 (scaleTrunc r.h p.scale) ≠ win.h) →
      ∃ res win', p.Update frame b = some res ∧ res.pool.windows[i]? = some win' ∧
        win'.x = win.x ∧ win'.y = win.y ∧
        win'.w = max 1 (scaleTrunc r.w p.scale) ∧ win'.h = max 1 (scaleTrunc r.h p.scale) ∧
        (b = false → res.calls = [HostCall.BeginDeferWindowPos res.staleCount]) ∧
        (b = true → ∃ entries flags,
          res.calls = HostCall.BeginDeferWindowPos res.staleCount :: entries ++
            [HostCall.EndDeferWindowPos] ∧
          HostCall.DeferWindowPos win.hwnd win.x win.y (max 1 (scaleTrunc r.w p.scale))
            (max 1 (scaleTrunc r.h p.scale)) flags ∈ entries ∧
          hasFlag flags SWP_NOMOVE = true ∧ hasFlag flags SWP_NOSIZE = false ∧
          win' = { win with w := max 1 (scaleTrunc r.w p.scale),
                            h := max 1 (scaleTrunc r.h p.scale) })) := by
  have hslot := slotsAfter_active p frame i r win hn hi hr hw
  obtain ⟨hf1, hf2, hf3⟩ := flags_false_of_not_stale win hclean
  constructor
  · intro hsz hpos
    have hupd := Update_position_only win _ _ _ _ hvis hsz hpos
    unfold updateActive at hslot
    rw [hupd] at hslot
    have hfl := applyFlags_position_only
      { win with x := p.originX + scaleTrunc r.x p.scale,
                 y := p.originY + scaleTrunc r.y p.scale, pos_stale := true } rfl hf2 hf3
    cases b with
    | false =>
      obtain ⟨res, hres, hcalls, hpool⟩ :=
        Update_refused p frame hp i _ hslot (by simp [DeferredWindow.IsStale])
      exact ⟨res, _, hres, hpool, rfl, rfl, rfl, rfl, fun _ => hcalls, fun h => by cases h⟩
    | true =>
      obtain ⟨res, entries, hres, hcalls, hmem, hpool⟩ :=
        Update_entry p frame hp i _ hslot (by simp [DeferredWindow.IsStale])
      refine ⟨res, _, hres, hpool, rfl, rfl, rfl, rfl, fun h => (by cases h), fun _ => ?_⟩
      refine ⟨entries, _, hcalls, hmem, ?_, ?_, ?_⟩
      · rw [hfl]
        decide
      · rw [hfl]
        decide
      · cases win
        simp only at hf1 hf2 hf3
        simp only [DeferredWindow.clean, hf1, hf2, hf3]
  · intro hpos hsz
    have hupd := Update_size_only win _ _ _ _ hvis hpos hsz
    unfold updateActive at hslot
    rw [hupd] at hslot
    have hfl := applyFlags_size_only
      { win with w := max 1 (scaleTrunc r.w p.scale),
                 h := max 1 (scaleTrunc r.h p.scale), sz_stale := true } hf1 rfl hf3
    cases b with
    | false =>
      obtain ⟨res, hres, hcalls, hpool⟩ :=
        Update_refused p frame hp i _ hslot (by simp [DeferredWindow.IsStale])
      exact ⟨res, _, hres, hpool, rfl, rfl, rfl, rfl, fun _ => hcalls, fun h => by cases h⟩
    | true =>
      obtain ⟨res, entries, hres, hcalls, hmem, hpool⟩ :=
        Update_entry p frame hp i _ hslot (by simp [DeferredWindow.IsStale])
      refine ⟨res, _, hres, hpool, rfl, rfl, rfl, rfl, fun h => (by cases h), fun _ => ?_⟩
      refine ⟨entries, _, hcalls, hmem, ?_, ?_, ?_⟩
      · rw [hfl]
        decide
      · rw [hfl]
        decide
      · cases win
        simp only at hf1 hf2 hf3
        simp only [DeferredWindow.clean, hf1, hf2, hf3]

set_option maxRecDepth 100000 in
theorem update_narrows_entry_witness :
    (poolAfterFrame0.Update frame1 true).map (fun r => r.calls) =
        some [HostCall.BeginDeferWindowPos 1, HostCall.DeferWindowPos 0 101 50 1 1 0x11D,
          HostCall.EndDeferWindowPos] ∧
      ∃ res win', poolAfterFrame0.Update frame1 true = some res ∧
        res.pool.windows[0]? = some win' ∧ win'.x = 101 ∧ win'.y = 50 ∧ win'.w = 1 ∧
        win'.h = 1 ∧
        ∃ entries flags, res.calls = HostCall.BeginDeferWindowPos res.staleCount :: entries ++
            [HostCall.EndDeferWindowPos] ∧
          HostCall.DeferWindowPos 0 101 50 1 1 flags ∈ entries ∧
          hasFlag flags SWP_NOSIZE = true ∧ hasFlag flags SWP_NOMOVE = false :=
  ⟨by decide,
    let ⟨res, win', h1, h2, h3, h4, h5, h6, _, h8⟩ :=
      (update_narrows_entry poolAfterFrame0 frame1 0 ⟨1, 0, 1, 1⟩
        { hwnd := 0, x := 100, y := 50, w := 1, h := 1, visible := true,
          pos_stale := false, sz_stale := false, visible_stale := false }
        poolAfterFrame0_length (by decide) (by decide) (by decide) (by decide) rfl rfl true).1
        ⟨by decide, by decide⟩ (Or.inl (by decide))
    let ⟨entries, flags, h9, h10, h11, h12, _⟩ := h8 rfl
    ⟨res, win', h1, h2, h3, h4, h5, h6, entries, flags, h9, h10, h11, h12⟩⟩

set_option maxRecDepth 100000 in
/-- C10 (target geometry), counterexample.  At scale `1/2` the rectangle `{0,0,1,1}` scales
to width and height `trunc(0.5) = 0`, but the slot is stored (visible) with width and height 1,
and these are the values passed to its `DeferWindowPos` entry: `Update` clamps with
`max(1, ·)`.  At scale `0.7f` the rectangle `{10,20,30,40}` scales in exact arithmetic to
`6, 13, 20, 27`, but the binary32 products round to `7.0f, 14.0f, 21.0f, 28.0f`: the slot is
stored, and passed, at `(100 + 7, 50 + 14)` with size `21 × 28`. -/
theorem stored_geometry_is_clamped_and_rounded :
    (exactScaleTrunc 1 halfScalePool.scale = 0 ∧
      (halfScalePool.Update frame0 true).map
          (fun r => (r.pool.windows.head?.map (fun w => (w.visible, w.w, w.h)),
            r.calls.take 2)) =
        some (some (true, 1, 1),
          [HostCall.BeginDeferWindowPos 150, HostCall.DeferWindowPos 0 0 0 1 1 0x154])) ∧
    (List.map (fun v => exactScaleTrunc v scale07) [10, 20, 30, 40] = [6, 13, 20, 27] ∧
      (pool07.Update frameA true).map (fun r => (r.pool.windows.head?, r.calls.take 2)) =
        some (some { hwnd := 0, x := 107, y := 64, w := 21, h := 28, visible := true,
                     pos_stale := false, sz_stale := false, visible_stale := false },
          [HostCall.BeginDeferWindowPos 150, HostCall.DeferWindowPos 0 107 64 21 28 0x154])) := by
  decide

/-- C10 (target geometry), as the code has it.  Pool of 150 windows, frame whose rectangle
count `n` fits `int`, slot `i < min(n, 150)` with rectangle `r = big_rects[i]`, any scale
`s` and origin.  With `scaleTrunc v s` the binary32 product `v * s` truncated toward zero:
after `Update` the slot is visible and stored with `x = originX + scaleTrunc r.x s`,
`y = originY + scaleTrunc r.y s`, `w = max(1, scaleTrunc r.w s)`, `h = max(1, scaleTrunc r.h s)`;
every `DeferWindowPos` entry of the transaction passes the stored geometry of a window of the
pool; and when the transaction opens and the slot's window was changed by this `Update`, the
transaction has an entry for it, with exactly that geometry. -/
theorem update_target_geometry (p : WindowPool) (frame : FrameData) (b : Bool) (i : Nat)
    (r : RectData) (hp : p.windows.length = Constants.MAX_PHYSICAL_WINDOWS)
    (hn : frame.big_rects.length < 2 ^ 31) (hi : i < Constants.MAX_PHYSICAL_WINDOWS)
    (hr : frame.big_rects[i]? = some r) :
    ∃ res win, p.Update frame b = some res ∧ res.pool.windows[i]? = some win ∧
      win.visible = true ∧
      win.x = p.originX + scaleTrunc r.x p.scale ∧
      win.y = p.originY + scaleTrunc r.y p.scale ∧
      win.w = max 1 (scaleTrunc r.w p.scale) ∧
      win.h = max 1 (scaleTrunc r.h p.scale) ∧
      (∀ c ∈ res.calls, c.isDefer = true →
        ∃ (j : Nat) (w : DeferredWindow) (flags : Nat), res.pool.windows[j]? = some w ∧
          c = HostCall.DeferWindowPos w.hwnd w.x w.y w.w w.h flags) ∧
      (b = true → ∀ old, p.windows[i]? = some old → win ≠ old →
        ∃ flags, HostCall.DeferWindowPos win.hwnd win.x win.y win.w win.h flags ∈ res.calls) := by
  obtain ⟨old, hold⟩ : ∃ old, p.windows[i]? = some old :=
    ⟨p.windows[i], List.getElem?_eq_getElem (hp ▸ hi)⟩
  have hslot := slotsAfter_active p frame i r old hn hi hr hold
  obtain ⟨hx, hy, hw, hh⟩ := Update_geometry old (p.originX + scaleTrunc r.x p.scale)
    (p.originY + scaleTrunc r.y p.scale) (scaleTrunc r.w p.scale) (scaleTrunc r.h p.scale)
  have hv := Update_visible old (p.originX + scaleTrunc r.x p.scale)
    (p.originY + scaleTrunc r.y p.scale) (scaleTrunc r.w p.scale) (scaleTrunc r.h p.scale) true
  obtain ⟨res, hres, hcount, hcase⟩ := Update_result p frame b hp
  have hentry : ∀ win, (win = updateActive p.originX p.originY p.scale old r ∨
        win = (updateActive p.originX p.originY p.scale old r).clean) →
      b = true → win ≠ old →
      ∃ flags, HostCall.DeferWindowPos win.hwnd win.x win.y win.w win.h flags ∈ res.calls := by
    intro win hwin hb hne
    have hst : (updateActive p.originX p.originY p.scale old r).IsStale = true := by
      cases hs : (updateActive p.originX p.originY p.scale old r).IsStale
      · exfalso
        have h1 : updateActive p.originX p.originY p.scale old r = old :=
          Update_eq_self_of_not_stale _ _ _ _ _ _ hs
        rcases hwin with h | h
        · exact hne (h.trans h1)
        · rw [clean_of_not_stale _ hs] at h
          exact hne (h.trans h1)
      · rfl
    obtain ⟨res', entries, hres', hcalls, hmem, _⟩ := Update_entry p frame hp i _ hslot hst
    subst hb
    rw [hres] at hres'
    injection hres' with hres'
    subst hres'
    refine ⟨(updateActive p.originX p.originY p.scale old r).applyFlags, ?_⟩
    rw [hcalls]
    refine List.mem_cons_of_mem _ (List.mem_append_left _ ?_)
    rcases hwin with h | h
    · rw [h]
      exact hmem
    · rw [h]
      exact hmem
  rcases hcase with ⟨hpool, hcalls⟩ | ⟨hpool, _, _, hcalls⟩
  · refine ⟨res, updateActive p.originX p.originY p.scale old r, hres, ?_, hv, hx, hy, hw, hh,
      ?_, ?_⟩
    · rw [hpool]
      exact hslot
    · intro c hc hdefer
      rcases hcalls with h | h
      · rw [h] at hc
        cases hc
      · rw [h] at hc
        rcases List.mem_singleton.mp hc with h'
        rw [h'] at hdefer
        cases hdefer
    · intro hb old' hold' hne
      rw [hold] at hold'
      injection hold' with hold'
      subst hold'
      exact hentry _ (Or.inl rfl) hb hne
  · refine ⟨res, (updateActive p.originX p.originY p.scale old r).clean, hres, ?_, hv, hx, hy,
      hw, hh, ?_, ?_⟩
    · rw [hpool]
      show ((slotsAfter p frame).map DeferredWindow.clean)[i]? = _
      rw [List.getElem?_map, hslot]
      rfl
    · intro c hc hdefer
      rw [hcalls] at hc
      rcases List.mem_cons.mp hc with h | h
      · rw [h] at hdefer
        cases hdefer
      · rcases List.mem_append.mp h with h | h
        · obtain ⟨w1, hw1, hc1⟩ := List.mem_map.mp h
          obtain ⟨j, hj⟩ := List.mem_iff_getElem?.mp (List.mem_filter.mp hw1).1
          refine ⟨j, w1.clean, w1.applyFlags, ?_, hc1.symm⟩
          rw [hpool]
          show ((slotsAfter p frame).map DeferredWindow.clean)[j]? = _
          rw [List.getElem?_map, hj]
          rfl
        · rw [List.mem_singleton.mp h] at hdefer
          cases hdefer
    · intro hb old' hold' hne
      rw [hold] at hold'
      injection hold' with hold'
      subst hold'
      exact hentry _ (Or.inr rfl) hb hne

set_option maxRecDepth 100000 in
theorem update_target_geometry_witness :
    ∃ res win, pool07.Update frameA true = some res ∧
      res.pool.windows[0]? = some win ∧ win.visible = true ∧
      win.x = 107 ∧ win.y = 64 ∧ win.w = 21 ∧ win.h = 28 ∧
      ∃ flags, HostCall.DeferWindowPos win.hwnd win.x win.y win.w win.h flags ∈ res.calls :=
  let ⟨res, win, h1, h2, h3, h4, h5, h6, h7, _, h9⟩ :=
    update_target_geometry pool07 frameA true 0 ⟨10, 20, 30, 40⟩
      (Initialize_length _ _ _) (by decide) (by decide) (by decide)
  ⟨res, win, h1, h2, h3, h4, h5, h6, h7,
    h9 rfl (DeferredWindow.create 0) (by decide) (fun h => by
      rw [h] at h3
      exact absurd h3 (by decide))⟩

end BadApple
